import Mathlib

/-!
Shallow embedding of the core of the cairo-vm.go virtual machine:
field elements, relocatable addresses, the segmented write-once memory,
the instruction decoder, the step executor, the builtin runners and the
cairo runner, together with theorems settling the specification claims.

Conventions.  Go code that mutates a receiver is modelled by state
passing: a mutating method of a Go struct becomes a Lean function that
returns the updated structure, paired with an `Option` error when the Go
method returns an `error` (the pair keeps the partially mutated state on
failure, exactly as the Go caller keeps its mutated receiver).  Pure
fallible functions return `Except`.  Go maps are modelled as association
lists looked up by decidable equality.  Machine integers are `Nat` and
`Int` with explicit wraparound where the Go code can wrap.
-/

/-- Prime modulus of the Cairo field, P = 2^251 + 17 * 2^192 + 1. -/
def PRIME : Nat := 0x800000000000011000000000000000000000000000000000000000000000001

theorem PRIME_pos : 0 < PRIME := by decide

/-- Field element: an unsigned integer modulo `PRIME` (Go type lambdaworks.Felt). -/
abbrev Felt : Type := Fin PRIME

/-- Builds a felt from a natural number, reducing modulo the prime. -/
def Felt.ofNat (n : Nat) : Felt := ⟨n % PRIME, Nat.mod_lt _ PRIME_pos⟩

def FeltZero : Felt := Felt.ofNat 0

def FeltOne : Felt := Felt.ofNat 1

/-- Go lambdaworks.FeltFromUint64: callers always pass values below 2^64 < PRIME. -/
def FeltFromUint64 (n : Nat) : Felt := Felt.ofNat n

def Felt.Add (a b : Felt) : Felt := Felt.ofNat (a.val + b.val)

def Felt.Sub (a b : Felt) : Felt := Felt.ofNat (a.val + (PRIME - b.val))

def Felt.Mul (a b : Felt) : Felt := Felt.ofNat (a.val * b.val)

/-- Modular exponentiation by squaring, used for the field inverse. -/
def powMod (b e m : Nat) : Nat :=
  if h : e = 0 then 1 % m
  else
    let r := powMod b (e / 2) m
    if e % 2 = 0 then r * r % m else r * r % m * b % m
termination_by e
decreasing_by exact Nat.div_lt_self (Nat.pos_of_ne_zero h) (by decide)

/-- Field inverse via Fermat: a^(P-2) mod P. -/
def Felt.Inv (a : Felt) : Felt := Felt.ofNat (powMod a.val (PRIME - 2) PRIME)

def Felt.Div (a b : Felt) : Felt := a.Mul b.Inv

def Felt.IsZero (a : Felt) : Bool := a.val == 0

/-- Bit length of a natural number below 2 ^ fuel, by structural
recursion on the fuel so that it evaluates inside the kernel. -/
def bitLenAux : Nat → Nat → Nat
  | 0, _ => 0
  | fuel + 1, n => if n = 0 then 0 else bitLenAux fuel (n / 2) + 1

/-- Modelled from the spec: lambdaworks.Felt.Bits is absent from the sources;
the spec calls it the bit length of the value, matching the repository's
tests (Bits 0 = 0, Bits 1 = 1, Bits 8 = 4, Bits 15 = 4, Bits (P-1) = 252).
A felt is below 2^252, so 256 iterations always suffice. -/
def Felt.Bits (a : Felt) : Nat := bitLenAux 256 a.val

/-- Modelled from the spec: lambdaworks.Felt.And is absent from the sources;
the spec specifies bitwise AND of the two values. -/
def Felt.And (a b : Felt) : Felt := Felt.ofNat (Nat.land a.val b.val)

/-- Modelled from the spec: lambdaworks.Felt.Xor is absent from the sources;
the spec specifies bitwise XOR of the two values. -/
def Felt.Xor (a b : Felt) : Felt := Felt.ofNat (Nat.xor a.val b.val)

/-- Modelled from the spec: lambdaworks.Felt.Or is absent from the sources;
the spec specifies bitwise OR of the two values. -/
def Felt.Or (a b : Felt) : Felt := Felt.ofNat (Nat.lor a.val b.val)

/-- Error kinds surfaced by the embedded code, one constructor per
distinct error produced by the modelled Go functions. -/
inductive VmError where
  | NonZeroHighBit
  | InvalidOp1Reg
  | InvalidPcUpdate
  | InvalidRes
  | InvalidOpcode
  | InvalidApUpdate
  | UnallocatedSegment
  | InconsistentMemory
  | ValueNotFound
  | ExpectedFelt
  | ConversionError
  | OutsideBounds
  | NotAFelt
  | ValidationFailed
  | FeltBiggerThanPowerOfTwo
  | SubNegOffset
  | DiffSegmentSub
  | OffsetExceeded
  | RelocatableAdd
  | CantSubRelocatableFromFelt
  | FailedToFetchInstruction
  | WrongInstructionEncoding
  | FailedToComputeDstAddr
  | FailedToComputeOp0Addr
  | FailedToComputeOp1Addr
  | UnknownOp0
  | AddressNotRelocatable
  | FailedToComputeOrDeduceOp0
  | FailedToComputeOrDeduceOp1
  | ComputeResRelocatableMul
  | NoDst
  | UnconstrainedResAssertEq
  | DiffAssertValues
  | CantWriteReturnPc
  | CantWriteReturnFp
  | UnconstrainedResJump
  | JumpResNotRelocatable
  | UnconstrainedResJumpRel
  | JumpRelResNotFelt
  | UnconstrainedResAdd
  | EndOfProgram (remaining : Nat)
  | RunnerCalledTwice
  | MemoryUnitsNotDivisible
  | SafeDivFail
  | SegmentSizeNotFound
  | InsufficientAllocatedCells (unused : Nat) (needed : Nat)
  | InsufficientAllocatedCellsBuiltin (name : String) (used : Nat) (size : Nat)
  | InsufficientAllocatedCellsMinStep (minStep : Nat) (name : String)
  | OutOfFuel
  deriving DecidableEq

/-- Mirrors the Go check errors.Unwrap(err) == memory.ErrInsufficientAllocatedCells:
each InsufficientAllocatedCells variant wraps that base error. -/
def VmError.isInsufficientAllocatedCells : VmError → Bool
  | .InsufficientAllocatedCells _ _ => true
  | .InsufficientAllocatedCellsBuiltin _ _ _ => true
  | .InsufficientAllocatedCellsMinStep _ _ => true
  | _ => false

/-- Relocatable address: a segment index paired with an offset into the segment. -/
structure Relocatable where
  SegmentIndex : Int
  Offset : Nat
  deriving DecidableEq

def NewRelocatable (s : Int) (o : Nat) : Relocatable := ⟨s, o⟩

/-- Converts a felt back to a Go uint64; Modelled from the spec: the
conversion to unsigned 64-bit fails when the value does not fit. -/
def Felt.ToU64 (a : Felt) : Except VmError Nat :=
  if a.val < 2 ^ 64 then .ok a.val else .error .ConversionError

/-- Adds a felt to the offset of a relocatable, via felt arithmetic on the
offset followed by a conversion back to uint (fails past 2^64). -/
def Relocatable.AddFelt (r : Relocatable) (other : Felt) : Except VmError Relocatable := do
  let new_offset ← ((FeltFromUint64 r.Offset).Add other).ToU64
  .ok (NewRelocatable r.SegmentIndex new_offset)

/-- Distance between two relocatables of the same segment. -/
def Relocatable.Sub (r other : Relocatable) : Except VmError Nat :=
  if r.SegmentIndex ≠ other.SegmentIndex then .error .DiffSegmentSub
  else if r.Offset < other.Offset then .error .SubNegOffset
  else .ok (r.Offset - other.Offset)

/-- Subtracts a felt from the offset of a relocatable via felt arithmetic. -/
def Relocatable.SubFelt (r : Relocatable) (other : Felt) : Except VmError Relocatable := do
  let new_offset ← ((FeltFromUint64 r.Offset).Sub other).ToU64
  .ok (NewRelocatable r.SegmentIndex new_offset)

/-- Modelled from the spec: Relocatable.AddUint is absent from the sources;
address plus a non-negative integer advances the offset. -/
def Relocatable.AddUint (r : Relocatable) (other : Nat) : Except VmError Relocatable :=
  .ok (NewRelocatable r.SegmentIndex (r.Offset + other))

/-- Modelled from the spec: Relocatable.SubUint is absent from the sources;
a negative resulting offset fails. -/
def Relocatable.SubUint (r : Relocatable) (other : Nat) : Except VmError Relocatable :=
  if r.Offset < other then .error .SubNegOffset
  else .ok (NewRelocatable r.SegmentIndex (r.Offset - other))

def Relocatable.IsEqual (r other : Relocatable) : Bool := r == other

/-- A tagged memory value: either a field element or a relocatable address. -/
inductive MaybeRelocatable where
  | felt (f : Felt)
  | rel (r : Relocatable)
  deriving DecidableEq

def NewMaybeRelocatableFelt (f : Felt) : MaybeRelocatable := .felt f

def NewMaybeRelocatableRelocatable (r : Relocatable) : MaybeRelocatable := .rel r

def MaybeRelocatable.GetFelt : MaybeRelocatable → Option Felt
  | .felt f => some f
  | .rel _ => none

def MaybeRelocatable.GetRelocatable : MaybeRelocatable → Option Relocatable
  | .rel r => some r
  | .felt _ => none

/-- Returns true exactly when the value is a felt that is zero; relocatable
values are never zero. -/
def MaybeRelocatable.IsZero (m : MaybeRelocatable) : Bool :=
  match m with
  | .felt f => f.IsZero
  | .rel _ => false

def MaybeRelocatable.IsEqual (m other : MaybeRelocatable) : Bool := m == other

/-- Modelled from the spec: Relocatable.AddMaybeRelocatable is absent from the
sources; per the MaybeValue partial arithmetic, relocatable plus felt advances
the offset and relocatable plus relocatable fails. -/
def Relocatable.AddMaybeRelocatable (r : Relocatable) (other : MaybeRelocatable) :
    Except VmError Relocatable :=
  match other with
  | .felt f => r.AddFelt f
  | .rel _ => .error .RelocatableAdd

/-- Addition on memory values: felt+felt, relocatable+felt and
felt+relocatable succeed, relocatable+relocatable fails. -/
def MaybeRelocatable.Add (m other : MaybeRelocatable) : Except VmError MaybeRelocatable :=
  match m, other with
  | .felt a, .felt b => .ok (.felt (a.Add b))
  | .rel r, .felt f => do
      let rel ← r.AddFelt f
      .ok (.rel rel)
  | .felt f, .rel r => do
      let rel ← r.AddFelt f
      .ok (.rel rel)
  | .rel _, .rel _ => .error .RelocatableAdd

/-- Subtraction on memory values: felt-felt, relocatable-felt and
relocatable-relocatable (same segment) succeed, otherwise fails. -/
def MaybeRelocatable.Sub (m other : MaybeRelocatable) : Except VmError MaybeRelocatable :=
  match m, other with
  | .felt a, .felt b => .ok (.felt (a.Sub b))
  | .rel r, .felt f => do
      let rel ← r.SubFelt f
      .ok (.rel rel)
  | .rel r, .rel other_rel => do
      let diff ← r.Sub other_rel
      .ok (.felt (FeltFromUint64 diff))
  | .felt _, .rel _ => .error .CantSubRelocatableFromFelt

/-- Association list lookup by decidable equality, modelling a Go map read. -/
def lookupBy {α β : Type} [DecidableEq α] : List (α × β) → α → Option β
  | [], _ => none
  | p :: rest, k => if p.1 = k then some p.2 else lookupBy rest k

/-- Association list write, modelling a Go map assignment: replaces the
value of an existing key, otherwise appends the binding. -/
def setBy {α β : Type} [DecidableEq α] (l : List (α × β)) (k : α) (v : β) : List (α × β) :=
  if (lookupBy l k).isSome then l.map (fun p => if p.1 = k then (k, v) else p)
  else l ++ [(k, v)]

/-- Memory data: the map from addresses to values. -/
abbrev MemoryData : Type := List (Relocatable × MaybeRelocatable)

/-- A validation rule takes the memory and an address and returns the list
of addresses it validated.  Go passes the whole Memory; the rules only read
its data map, which is what the Lean rule receives. -/
abbrev ValidationRuleT : Type := MemoryData → Relocatable → Except VmError (List Relocatable)

/-- Segmented write-once memory: the data map, the number of allocated
segments, the per-segment validation rules, the set of validated addresses
and the set of accessed addresses. -/
structure Memory where
  data : MemoryData
  num_segments : Nat
  validation_rules : List (Nat × ValidationRuleT)
  validated_addresses : List Relocatable
  accessed : List Relocatable

def NewMemory : Memory := ⟨[], 0, [], [], []⟩

/-- Fetches the value stored at an address (Go returns an error when absent). -/
def Memory.Get (m : Memory) (addr : Relocatable) : Option MaybeRelocatable :=
  lookupBy m.data addr

/-- Fetches the value at an address and requires it to be a felt. -/
def Memory.GetFelt (m : Memory) (addr : Relocatable) : Except VmError Felt :=
  match m.Get addr with
  | none => .error .ValueNotFound
  | some v =>
    match v.GetFelt with
    | some f => .ok f
    | none => .error .ExpectedFelt

/-- Fetches the value at an address and requires it to be a relocatable. -/
def Memory.GetRelocatable (m : Memory) (addr : Relocatable) : Except VmError Relocatable :=
  match m.Get addr with
  | none => .error .ValueNotFound
  | some v =>
    match v.GetRelocatable with
    | some r => .ok r
    | none => .error .AddressNotRelocatable

/-- Registers a validation rule for a segment. -/
def Memory.AddValidationRule (m : Memory) (segment_index : Nat) (rule : ValidationRuleT) :
    Memory :=
  { m with validation_rules := setBy m.validation_rules segment_index rule }

/-- Adds an address to the validated set (the Go AddressSet is a map to
bool, so re-adding an element leaves the set unchanged). -/
def addressSetAdd (s : List Relocatable) (a : Relocatable) : List Relocatable :=
  if a ∈ s then s else s ++ [a]

def addressSetAddAll (s : List Relocatable) : List Relocatable → List Relocatable
  | [] => s
  | a :: rest => addressSetAddAll (addressSetAdd s a) rest

/-- Applies the validation rule of the segment of the address, if any.
Skips validation for temporary (negative-segment) addresses and for
addresses already validated. -/
def Memory.validateAddress (m : Memory) (addr : Relocatable) : Memory × Option VmError :=
  if addr.SegmentIndex < 0 ∨ addr ∈ m.validated_addresses then (m, none)
  else
    match lookupBy m.validation_rules addr.SegmentIndex.toNat with
    | none => (m, none)
    | some rule =>
      match rule m.data addr with
      | .error e => (m, some e)
      | .ok validated =>
        ({ m with validated_addresses := addressSetAddAll m.validated_addresses validated },
          none)

/-- Inserts a value at an address: the segment must be below the segment
counter, an existing distinct value is a write-once violation, and the
write is followed by validation of the address. -/
def Memory.Insert (m : Memory) (addr : Relocatable) (val : MaybeRelocatable) :
    Memory × Option VmError :=
  if (m.num_segments : Int) ≤ addr.SegmentIndex then (m, some .UnallocatedSegment)
  else
    match lookupBy m.data addr with
    | some prev_elem =>
      if prev_elem ≠ val then (m, some .InconsistentMemory)
      else
        let m1 : Memory := { m with data := setBy m.data addr val }
        m1.validateAddress addr
    | none =>
      let m1 : Memory := { m with data := setBy m.data addr val }
      m1.validateAddress addr

/-- Runs the validation rules against every address currently in memory. -/
def Memory.validateAll (m : Memory) : List Relocatable → Memory × Option VmError
  | [] => (m, none)
  | a :: rest =>
    match m.validateAddress a with
    | (m1, some e) => (m1, some e)
    | (m1, none) => m1.validateAll rest

def Memory.ValidateExistingMemory (m : Memory) : Memory × Option VmError :=
  m.validateAll (m.data.map (fun p => p.1))

/-- Modelled from the spec: Memory.MarkAsAccessed is absent from the sources;
the spec records every read or written address for hole accounting. -/
def Memory.MarkAsAccessed (m : Memory) (addr : Relocatable) : Memory :=
  { m with accessed := addressSetAdd m.accessed addr }

/-- The segment manager holds the memory and the per-segment sizes
computed at finalization. -/
structure MemorySegmentManager where
  segmentSizes : List (Nat × Nat)
  Memory : Memory

def NewMemorySegmentManager : MemorySegmentManager := ⟨[], NewMemory⟩

/-- Allocates a new segment, returning its base address. -/
def MemorySegmentManager.AddSegment (m : MemorySegmentManager) :
    Relocatable × MemorySegmentManager :=
  (⟨(m.Memory.num_segments : Int), 0⟩,
    { m with Memory := { m.Memory with num_segments := m.Memory.num_segments + 1 } })

/-- Inserts a list of values at consecutive addresses, returning the first
address past the data; stops at the first failing insertion. -/
def MemorySegmentManager.LoadData (m : MemorySegmentManager) (ptr : Relocatable)
    (data : List MaybeRelocatable) : MemorySegmentManager × Except VmError Relocatable :=
  match data with
  | [] => (m, .ok ptr)
  | val :: rest =>
    match m.Memory.Insert ptr val with
    | (mem1, some e) => ({ m with Memory := mem1 }, .error e)
    | (mem1, none) =>
      LoadData { m with Memory := mem1 } ⟨ptr.SegmentIndex, ptr.Offset + 1⟩ rest

/-- Modelled from the spec: GetSegmentUsedSize is absent from the sources;
it reads the size recorded for a segment. -/
def MemorySegmentManager.GetSegmentUsedSize (m : MemorySegmentManager) (i : Nat) :
    Except VmError Nat :=
  match lookupBy m.segmentSizes i with
  | some s => .ok s
  | none => .error .SegmentSizeNotFound

/-- Largest populated offset of a segment plus one, zero when empty. -/
def segmentSizeOf (d : MemoryData) (s : Nat) : Nat :=
  d.foldl (fun acc p => if p.1.SegmentIndex = (s : Int) then max acc (p.1.Offset + 1) else acc) 0

/-- Modelled from the spec: ComputeEffectiveSizes is absent from the sources;
each segment's size is its largest populated offset plus one. -/
def MemorySegmentManager.ComputeEffectiveSizes (m : MemorySegmentManager) :
    MemorySegmentManager :=
  { m with segmentSizes :=
      (List.range m.Memory.num_segments).map (fun s => (s, segmentSizeOf m.Memory.data s)) }

/-- Modelled from the spec: GetMemoryHoles is absent from the sources; it
counts, outside the builtin segments, the offsets below a segment's size
that were never marked accessed. -/
def MemorySegmentManager.GetMemoryHoles (m : MemorySegmentManager) (builtinCount : Nat) :
    Except VmError Nat :=
  .ok (m.segmentSizes.foldl
    (fun acc p =>
      if 2 ≤ p.1 ∧ p.1 < 2 + builtinCount then acc
      else acc +
        ((List.range p.2).filter
          (fun o => ¬ (⟨(p.1 : Int), o⟩ : Relocatable) ∈ m.Memory.accessed)).length)
    0)

/-- Destination and op0 register selector. -/
inductive Register where
  | AP
  | FP
  deriving DecidableEq

/-- Source of the op1 operand. -/
inductive Op1Src where
  | Op1SrcImm
  | Op1SrcAP
  | Op1SrcFP
  | Op1SrcOp0
  deriving DecidableEq

/-- Result logic of the instruction. -/
inductive ResLogic where
  | ResOp1
  | ResAdd
  | ResMul
  | ResUnconstrained
  deriving DecidableEq

/-- Program counter update mode. -/
inductive PcUpdate where
  | PcUpdateRegular
  | PcUpdateJump
  | PcUpdateJumpRel
  | PcUpdateJnz
  deriving DecidableEq

/-- Allocation pointer update mode. -/
inductive ApUpdate where
  | ApUpdateRegular
  | ApUpdateAdd
  | ApUpdateAdd1
  | ApUpdateAdd2
  deriving DecidableEq

/-- Frame pointer update mode. -/
inductive FpUpdate where
  | FpUpdateRegular
  | FpUpdateAPPlus2
  | FpUpdateDst
  deriving DecidableEq

/-- Instruction opcode. -/
inductive Opcode where
  | NOp
  | AssertEq
  | Call
  | Ret
  deriving DecidableEq

/-- A decoded instruction: three signed offsets and the flag fields. -/
structure Instruction where
  Off0 : Int
  Off1 : Int
  Off2 : Int
  DstReg : Register
  Op0Reg : Register
  Op1Addr : Op1Src
  ResLogic : ResLogic
  PcUpdate : PcUpdate
  ApUpdate : ApUpdate
  FpUpdate : FpUpdate
  Opcode : Opcode
  deriving DecidableEq

/-- Size of an instruction: 2 with an immediate operand, 1 otherwise. -/
def Instruction.Size (i : Instruction) : Nat :=
  if i.Op1Addr = .Op1SrcImm then 2 else 1

/-- Decodes a 16-bit biased offset: cast to uint16, subtract the bias
2^15 with wraparound, reinterpret as a signed 16-bit integer. -/
def fromBiasedRepresentation (offset : Nat) : Int :=
  let r : Nat := (offset % 65536 + 65536 - 32768) % 65536
  if r < 32768 then (r : Int) else (r : Int) - 65536

/-- Flag block of an encoded instruction (bits 48 and up). -/
def flagsOf (encodedInstruction : Nat) : Nat := encodedInstruction >>> 48

def dstRegNumOf (e : Nat) : Nat := (flagsOf e &&& 0x0001) >>> 0

def op0RegNumOf (e : Nat) : Nat := (flagsOf e &&& 0x0002) >>> 1

def op1SrcNumOf (e : Nat) : Nat := (flagsOf e &&& 0x001C) >>> 2

def resLogicNumOf (e : Nat) : Nat := (flagsOf e &&& 0x0060) >>> 5

def pcUpdateNumOf (e : Nat) : Nat := (flagsOf e &&& 0x0380) >>> 7

def apUpdateNumOf (e : Nat) : Nat := (flagsOf e &&& 0x0C00) >>> 10

def opCodeNumOf (e : Nat) : Nat := (flagsOf e &&& 0x7000) >>> 12

/-- Decodes the op1 source field: 0 is OP0, 1 is IMM, 2 is FP, 4 is AP. -/
def decodeOp1Src (n : Nat) : Except VmError Op1Src :=
  if n = 0 then .ok .Op1SrcOp0
  else if n = 1 then .ok .Op1SrcImm
  else if n = 2 then .ok .Op1SrcFP
  else if n = 4 then .ok .Op1SrcAP
  else .error .InvalidOp1Reg

/-- Decodes the pc update field: 0 regular, 1 jump, 2 relative jump, 4 jnz. -/
def decodePcUpdate (n : Nat) : Except VmError PcUpdate :=
  if n = 0 then .ok .PcUpdateRegular
  else if n = 1 then .ok .PcUpdateJump
  else if n = 2 then .ok .PcUpdateJumpRel
  else if n = 4 then .ok .PcUpdateJnz
  else .error .InvalidPcUpdate

/-- Decodes the res logic field: 0 is OP1, unconstrained under JNZ; 1 add;
2 mul. -/
def decodeResLogic (n : Nat) (pcUpdate : PcUpdate) : Except VmError ResLogic :=
  if n = 0 then
    if pcUpdate = .PcUpdateJnz then .ok .ResUnconstrained else .ok .ResOp1
  else if n = 1 then .ok .ResAdd
  else if n = 2 then .ok .ResMul
  else .error .InvalidRes

/-- Decodes the opcode field: 0 nop, 1 call, 2 ret, 4 assert-eq. -/
def decodeOpcode (n : Nat) : Except VmError Opcode :=
  if n = 0 then .ok .NOp
  else if n = 1 then .ok .Call
  else if n = 2 then .ok .Ret
  else if n = 4 then .ok .AssertEq
  else .error .InvalidOpcode

/-- Decodes the ap update field: 0 regular, but add-two under CALL; 1 add;
2 add-one. -/
def decodeApUpdate (n : Nat) (opcode : Opcode) : Except VmError ApUpdate :=
  if n = 0 then
    if opcode = .Call then .ok .ApUpdateAdd2 else .ok .ApUpdateRegular
  else if n = 1 then .ok .ApUpdateAdd
  else if n = 2 then .ok .ApUpdateAdd1
  else .error .InvalidApUpdate

/-- Frame pointer update implied by the opcode. -/
def fpUpdateFromOpcode (opcode : Opcode) : FpUpdate :=
  match opcode with
  | .Call => .FpUpdateAPPlus2
  | .Ret => .FpUpdateDst
  | _ => .FpUpdateRegular

/-- Decodes a 64-bit instruction word: the high bit must be zero, the
three low 16-bit groups are biased offsets, and the flag block starting
at bit 48 holds the enumerated fields, decoded in the order of the Go
switches (op1 source, pc update, res logic, opcode, ap update). -/
def DecodeInstruction (encodedInstruction : Nat) : Except VmError Instruction :=
  if encodedInstruction &&& (1 <<< 63) ≠ 0 then .error .NonZeroHighBit
  else
    let offset0 := fromBiasedRepresentation (encodedInstruction &&& 0xFFFF)
    let offset1 := fromBiasedRepresentation ((encodedInstruction >>> 16) &&& 0xFFFF)
    let offset2 := fromBiasedRepresentation ((encodedInstruction >>> 32) &&& 0xFFFF)
    let dstRegister : Register := if dstRegNumOf encodedInstruction = 1 then .FP else .AP
    let op0Register : Register := if op0RegNumOf encodedInstruction = 1 then .FP else .AP
    do
      let op1Src ← decodeOp1Src (op1SrcNumOf encodedInstruction)
      let pcUpdate ← decodePcUpdate (pcUpdateNumOf encodedInstruction)
      let res ← decodeResLogic (resLogicNumOf encodedInstruction) pcUpdate
      let opcode ← decodeOpcode (opCodeNumOf encodedInstruction)
      let apUpdate ← decodeApUpdate (apUpdateNumOf encodedInstruction) opcode
      let fpUpdate := fpUpdateFromOpcode opcode
      .ok { Off0 := offset0, Off1 := offset1, Off2 := offset2,
            DstReg := dstRegister, Op0Reg := op0Register, Op1Addr := op1Src,
            ResLogic := res, PcUpdate := pcUpdate, ApUpdate := apUpdate,
            FpUpdate := fpUpdate, Opcode := opcode }

/-- Spec-side table (from the spec's words) for the op1 source field,
total on valid field values. -/
def op1SrcSpec (n : Nat) : Op1Src :=
  if n = 0 then .Op1SrcOp0 else if n = 1 then .Op1SrcImm
  else if n = 2 then .Op1SrcFP else .Op1SrcAP

/-- Spec-side table for the pc update field. -/
def pcUpdateSpec (n : Nat) : PcUpdate :=
  if n = 0 then .PcUpdateRegular else if n = 1 then .PcUpdateJump
  else if n = 2 then .PcUpdateJumpRel else .PcUpdateJnz

/-- Spec-side table for the res logic field, unconstrained under JNZ. -/
def resLogicSpec (n : Nat) (pc : PcUpdate) : ResLogic :=
  if n = 0 then (if pc = .PcUpdateJnz then .ResUnconstrained else .ResOp1)
  else if n = 1 then .ResAdd else .ResMul

/-- Spec-side table for the opcode field. -/
def opcodeSpec (n : Nat) : Opcode :=
  if n = 0 then .NOp else if n = 1 then .Call
  else if n = 2 then .Ret else .AssertEq

/-- Spec-side table for the ap update field, ADD2 under CALL. -/
def apUpdateSpec (n : Nat) (opc : Opcode) : ApUpdate :=
  if n = 0 then (if opc = .Call then .ApUpdateAdd2 else .ApUpdateRegular)
  else if n = 1 then .ApUpdateAdd else .ApUpdateAdd1

/-- Valid bit patterns of the three-bit flag fields. -/
abbrev validThreeBitFlag (n : Nat) : Prop := n = 0 ∨ n = 1 ∨ n = 2 ∨ n = 4

/-- Valid bit patterns of the two-bit flag fields. -/
abbrev validTwoBitFlag (n : Nat) : Prop := n ≤ 2

theorem fromBiased_eq (o : Nat) (h : o < 65536) :
    fromBiasedRepresentation o = (o : Int) - 32768 := by
  unfold fromBiasedRepresentation
  simp only []
  split <;> omega

theorem decodeOp1Src_valid (n : Nat) (h : validThreeBitFlag n) :
    decodeOp1Src n = .ok (op1SrcSpec n) := by
  rcases h with rfl | rfl | rfl | rfl <;> rfl

theorem decodePcUpdate_valid (n : Nat) (h : validThreeBitFlag n) :
    decodePcUpdate n = .ok (pcUpdateSpec n) := by
  rcases h with rfl | rfl | rfl | rfl <;> rfl

theorem decodeResLogic_valid (n : Nat) (pc : PcUpdate) (h : validTwoBitFlag n) :
    decodeResLogic n pc = .ok (resLogicSpec n pc) := by
  unfold validTwoBitFlag at h
  interval_cases n
  · cases pc <;> rfl
  · rfl
  · rfl

theorem decodeOpcode_valid (n : Nat) (h : validThreeBitFlag n) :
    decodeOpcode n = .ok (opcodeSpec n) := by
  rcases h with rfl | rfl | rfl | rfl <;> rfl

theorem decodeApUpdate_valid (n : Nat) (opc : Opcode) (h : validTwoBitFlag n) :
    decodeApUpdate n opc = .ok (apUpdateSpec n opc) := by
  unfold validTwoBitFlag at h
  interval_cases n
  · cases opc <;> rfl
  · rfl
  · rfl

theorem highBit_iff (e : Nat) (he : e < 2 ^ 64) :
    (e &&& (1 <<< 63) ≠ 0) ↔ 2 ^ 63 ≤ e := by
  have hpow : (1 <<< 63 : Nat) = 2 ^ 63 := by decide
  rw [hpow, Nat.and_two_pow, Nat.testBit_to_div_mod]
  have h2 : (2 : Nat) ^ 64 = 2 ^ 63 * 2 := by norm_num
  constructor
  · intro h
    by_contra hlt
    push_neg at hlt
    rw [Nat.div_eq_of_lt hlt] at h
    simp at h
  · intro h
    have h1 : 1 ≤ e / 2 ^ 63 := (Nat.one_le_div_iff (by positivity)).mpr h
    have h3 : e / 2 ^ 63 < 2 := (Nat.div_lt_iff_lt_mul (by positivity)).mpr (by omega)
    have h4 : e / 2 ^ 63 = 1 := by omega
    have h5 : (2 : Nat) ^ 63 = 9223372036854775808 := by norm_num
    rw [h5] at h4
    rw [h4]
    decide

theorem decodeOp1Src_invalid (n : Nat) (h : ¬ validThreeBitFlag n) :
    decodeOp1Src n = .error .InvalidOp1Reg := by
  unfold validThreeBitFlag at h
  push_neg at h
  unfold decodeOp1Src
  rw [if_neg h.1, if_neg h.2.1, if_neg h.2.2.1, if_neg h.2.2.2]

theorem decodePcUpdate_invalid (n : Nat) (h : ¬ validThreeBitFlag n) :
    decodePcUpdate n = .error .InvalidPcUpdate := by
  unfold validThreeBitFlag at h
  push_neg at h
  unfold decodePcUpdate
  rw [if_neg h.1, if_neg h.2.1, if_neg h.2.2.1, if_neg h.2.2.2]

theorem decodeOpcode_invalid (n : Nat) (h : ¬ validThreeBitFlag n) :
    decodeOpcode n = .error .InvalidOpcode := by
  unfold validThreeBitFlag at h
  push_neg at h
  unfold decodeOpcode
  rw [if_neg h.1, if_neg h.2.1, if_neg h.2.2.1, if_neg h.2.2.2]

theorem decodeResLogic_invalid (n : Nat) (pc : PcUpdate) (h : ¬ validTwoBitFlag n) :
    decodeResLogic n pc = .error .InvalidRes := by
  unfold validTwoBitFlag at h
  unfold decodeResLogic
  rw [if_neg (by omega), if_neg (by omega), if_neg (by omega)]

theorem decodeApUpdate_invalid (n : Nat) (opc : Opcode) (h : ¬ validTwoBitFlag n) :
    decodeApUpdate n opc = .error .InvalidApUpdate := by
  unfold validTwoBitFlag at h
  unfold decodeApUpdate
  rw [if_neg (by omega), if_neg (by omega), if_neg (by omega)]

theorem except_bind_ok {α β : Type} (a : α) (f : α → Except VmError β) :
    (Except.ok a >>= f) = f a := rfl

theorem except_bind_error {α β : Type} (err : VmError) (f : α → Except VmError β) :
    ((Except.error err : Except VmError α) >>= f) = .error err := rfl

theorem and_ffff_lt (n : Nat) : n &&& 0xFFFF < 65536 :=
  Nat.lt_succ_of_le Nat.and_le_right

/-- Claim C2: DecodeInstruction fails with NonZeroHighBit exactly when bit 63
of the instruction word is set; otherwise it decodes the three low 16-bit
groups as signed offsets (biased value minus 2^15) and decodes the flag
fields per the normative table (op1 source 0 OP0, 1 IMM, 2 FP, 4 AP; res
logic 0 OP1 but UNCONSTRAINED under JNZ, 1 ADD, 2 MUL; pc update 0 REGULAR,
1 JUMP, 2 JUMP_REL, 4 JNZ; ap update 0 REGULAR but ADD2 under CALL, 1 ADD,
2 ADD1; opcode 0 NOP, 1 CALL, 2 RET, 4 ASSERT_EQ; fp update implied by the
opcode), and any other bit pattern in a flag field fails with the
corresponding decoding error. -/
theorem DecodeInstruction_flag_table (e : Nat) (he : e < 2 ^ 64) :
    (DecodeInstruction e = .error .NonZeroHighBit ↔ 2 ^ 63 ≤ e)
    ∧ (e < 2 ^ 63 → ¬ validThreeBitFlag (op1SrcNumOf e) →
        DecodeInstruction e = .error .InvalidOp1Reg)
    ∧ (e < 2 ^ 63 → validThreeBitFlag (op1SrcNumOf e) →
        ¬ validThreeBitFlag (pcUpdateNumOf e) →
        DecodeInstruction e = .error .InvalidPcUpdate)
    ∧ (e < 2 ^ 63 → validThreeBitFlag (op1SrcNumOf e) →
        validThreeBitFlag (pcUpdateNumOf e) → ¬ validTwoBitFlag (resLogicNumOf e) →
        DecodeInstruction e = .error .InvalidRes)
    ∧ (e < 2 ^ 63 → validThreeBitFlag (op1SrcNumOf e) →
        validThreeBitFlag (pcUpdateNumOf e) → validTwoBitFlag (resLogicNumOf e) →
        ¬ validThreeBitFlag (opCodeNumOf e) →
        DecodeInstruction e = .error .InvalidOpcode)
    ∧ (e < 2 ^ 63 → validThreeBitFlag (op1SrcNumOf e) →
        validThreeBitFlag (pcUpdateNumOf e) → validTwoBitFlag (resLogicNumOf e) →
        validThreeBitFlag (opCodeNumOf e) → ¬ validTwoBitFlag (apUpdateNumOf e) →
        DecodeInstruction e = .error .InvalidApUpdate)
    ∧ (e < 2 ^ 63 → validThreeBitFlag (op1SrcNumOf e) →
        validThreeBitFlag (pcUpdateNumOf e) → validTwoBitFlag (resLogicNumOf e) →
        validThreeBitFlag (opCodeNumOf e) → validTwoBitFlag (apUpdateNumOf e) →
        DecodeInstruction e = .ok
          { Off0 := ((e &&& 0xFFFF : Nat) : Int) - 32768,
            Off1 := (((e >>> 16) &&& 0xFFFF : Nat) : Int) - 32768,
            Off2 := (((e >>> 32) &&& 0xFFFF : Nat) : Int) - 32768,
            DstReg := if dstRegNumOf e = 1 then .FP else .AP,
            Op0Reg := if op0RegNumOf e = 1 then .FP else .AP,
            Op1Addr := op1SrcSpec (op1SrcNumOf e),
            ResLogic := resLogicSpec (resLogicNumOf e) (pcUpdateSpec (pcUpdateNumOf e)),
            PcUpdate := pcUpdateSpec (pcUpdateNumOf e),
            ApUpdate := apUpdateSpec (apUpdateNumOf e) (opcodeSpec (opCodeNumOf e)),
            FpUpdate := fpUpdateFromOpcode (opcodeSpec (opCodeNumOf e)),
            Opcode := opcodeSpec (opCodeNumOf e) }) := by
  refine ⟨?_, ?_, ?_, ?_, ?_, ?_, ?_⟩
  · constructor
    · intro h
      by_contra hlt
      push_neg at hlt
      have h0 : ¬ (e &&& (1 <<< 63) ≠ 0) := by
        rw [highBit_iff e he]
        omega
      unfold DecodeInstruction at h
      rw [if_neg h0] at h
      by_cases h1 : validThreeBitFlag (op1SrcNumOf e)
      · rw [decodeOp1Src_valid _ h1, except_bind_ok] at h
        by_cases h2 : validThreeBitFlag (pcUpdateNumOf e)
        · rw [decodePcUpdate_valid _ h2, except_bind_ok] at h
          by_cases h3 : validTwoBitFlag (resLogicNumOf e)
          · rw [decodeResLogic_valid _ _ h3, except_bind_ok] at h
            by_cases h4 : validThreeBitFlag (opCodeNumOf e)
            · rw [decodeOpcode_valid _ h4, except_bind_ok] at h
              by_cases h5 : validTwoBitFlag (apUpdateNumOf e)
              · rw [decodeApUpdate_valid _ _ h5, except_bind_ok] at h
                simp at h
              · rw [decodeApUpdate_invalid _ _ h5, except_bind_error] at h
                simp at h
            · rw [decodeOpcode_invalid _ h4, except_bind_error] at h
              simp at h
          · rw [decodeResLogic_invalid _ _ h3, except_bind_error] at h
            simp at h
        · rw [decodePcUpdate_invalid _ h2, except_bind_error] at h
          simp at h
      · rw [decodeOp1Src_invalid _ h1, except_bind_error] at h
        simp at h
    · intro h
      have h0 : e &&& (1 <<< 63) ≠ 0 := (highBit_iff e he).mpr h
      unfold DecodeInstruction
      rw [if_pos h0]
  · intro hlt h1
    have h0 : ¬ (e &&& (1 <<< 63) ≠ 0) := by
      rw [highBit_iff e he]
      omega
    unfold DecodeInstruction
    rw [if_neg h0, decodeOp1Src_invalid _ h1, except_bind_error]
  · intro hlt h1 h2
    have h0 : ¬ (e &&& (1 <<< 63) ≠ 0) := by
      rw [highBit_iff e he]
      omega
    unfold DecodeInstruction
    rw [if_neg h0, decodeOp1Src_valid _ h1, except_bind_ok,
      decodePcUpdate_invalid _ h2, except_bind_error]
  · intro hlt h1 h2 h3
    have h0 : ¬ (e &&& (1 <<< 63) ≠ 0) := by
      rw [highBit_iff e he]
      omega
    unfold DecodeInstruction
    rw [if_neg h0, decodeOp1Src_valid _ h1, except_bind_ok,
      decodePcUpdate_valid _ h2, except_bind_ok,
      decodeResLogic_invalid _ _ h3, except_bind_error]
  · intro hlt h1 h2 h3 h4
    have h0 : ¬ (e &&& (1 <<< 63) ≠ 0) := by
      rw [highBit_iff e he]
      omega
    unfold DecodeInstruction
    rw [if_neg h0, decodeOp1Src_valid _ h1, except_bind_ok,
      decodePcUpdate_valid _ h2, except_bind_ok,
      decodeResLogic_valid _ _ h3, except_bind_ok,
      decodeOpcode_invalid _ h4, except_bind_error]
  · intro hlt h1 h2 h3 h4 h5
    have h0 : ¬ (e &&& (1 <<< 63) ≠ 0) := by
      rw [highBit_iff e he]
      omega
    unfold DecodeInstruction
    rw [if_neg h0, decodeOp1Src_valid _ h1, except_bind_ok,
      decodePcUpdate_valid _ h2, except_bind_ok,
      decodeResLogic_valid _ _ h3, except_bind_ok,
      decodeOpcode_valid _ h4, except_bind_ok,
      decodeApUpdate_invalid _ _ h5, except_bind_error]
  · intro hlt h1 h2 h3 h4 h5
    have h0 : ¬ (e &&& (1 <<< 63) ≠ 0) := by
      rw [highBit_iff e he]
      omega
    unfold DecodeInstruction
    rw [if_neg h0, decodeOp1Src_valid _ h1, except_bind_ok,
      decodePcUpdate_valid _ h2, except_bind_ok,
      decodeResLogic_valid _ _ h3, except_bind_ok,
      decodeOpcode_valid _ h4, except_bind_ok,
      decodeApUpdate_valid _ _ h5, except_bind_ok,
      fromBiased_eq _ (and_ffff_lt e), fromBiased_eq _ (and_ffff_lt (e >>> 16)),
      fromBiased_eq _ (and_ffff_lt (e >>> 32))]

/-- Witness for C2: the standard ret instruction decodes per the table. -/
theorem DecodeInstruction_flag_table_witness :
    DecodeInstruction 0x208b7fff7fff7ffe = .ok
      { Off0 := -2, Off1 := -1, Off2 := -1,
        DstReg := .FP, Op0Reg := .FP, Op1Addr := .Op1SrcFP,
        ResLogic := .ResOp1, PcUpdate := .PcUpdateJump,
        ApUpdate := .ApUpdateRegular, FpUpdate := .FpUpdateDst,
        Opcode := .Ret } := by
  have h := (DecodeInstruction_flag_table 0x208b7fff7fff7ffe (by decide)).2.2.2.2.2.2
    (by decide) (by decide) (by decide) (by decide) (by decide) (by decide)
  rw [h]
  rfl

theorem lookupBy_setBy_eq {α β : Type} [DecidableEq α] (l : List (α × β)) (k : α) (v : β) :
    lookupBy (setBy l k v) k = some v := by
  unfold setBy
  split
  · rename_i h
    induction l with
    | nil => simp [lookupBy] at h
    | cons p rest ih =>
      by_cases hp : p.1 = k
      · simp [lookupBy, hp]
      · simp only [lookupBy, hp, if_false, List.map_cons, if_neg hp] at h ⊢
        exact ih h
  · induction l with
    | nil => simp [lookupBy]
    | cons p rest ih =>
      rename_i h
      by_cases hp : p.1 = k
      · simp [lookupBy, hp] at h
      · simp only [lookupBy, hp, if_false, List.cons_append, if_neg hp] at h ⊢
        exact ih h

theorem lookupBy_map_replace {α β : Type} [DecidableEq α] (l : List (α × β)) (k : α) (v : β)
    (a : α) (h : a ≠ k) :
    lookupBy (l.map (fun p => if p.1 = k then (k, v) else p)) a = lookupBy l a := by
  induction l with
  | nil => rfl
  | cons p rest ih =>
    rw [List.map_cons]
    by_cases hp : p.1 = k
    · rw [if_pos hp]
      show (if k = a then some v else _) = _
      rw [if_neg (Ne.symm h)]
      show _ = (if p.1 = a then some p.2 else lookupBy rest a)
      rw [if_neg (by rw [hp]; exact Ne.symm h)]
      exact ih
    · rw [if_neg hp]
      show (if p.1 = a then some p.2 else _) = (if p.1 = a then some p.2 else _)
      by_cases hpa : p.1 = a
      · rw [if_pos hpa, if_pos hpa]
      · rw [if_neg hpa, if_neg hpa]
        exact ih

theorem lookupBy_append_single {α β : Type} [DecidableEq α] (l : List (α × β)) (k : α) (v : β)
    (a : α) (h : a ≠ k) : lookupBy (l ++ [(k, v)]) a = lookupBy l a := by
  induction l with
  | nil =>
    show (if k = a then some v else lookupBy [] a) = none
    rw [if_neg (Ne.symm h)]
    rfl
  | cons p rest ih =>
    rw [List.cons_append]
    show (if p.1 = a then some p.2 else _) = (if p.1 = a then some p.2 else _)
    by_cases hpa : p.1 = a
    · rw [if_pos hpa, if_pos hpa]
    · rw [if_neg hpa, if_neg hpa]
      exact ih

theorem lookupBy_setBy_ne {α β : Type} [DecidableEq α] (l : List (α × β)) (k : α) (v : β)
    (a : α) (h : a ≠ k) : lookupBy (setBy l k v) a = lookupBy l a := by
  unfold setBy
  split
  · exact lookupBy_map_replace l k v a h
  · exact lookupBy_append_single l k v a h

/-- Modelled from the spec: the range-check constants are absent from the
sources; the spec fixes the bound at 2^128, so the product of the two
constants is 128 (eight 16-bit parts). -/
def N_PARTS : Nat := 8

def INNER_RC_BOUND_SHIFT : Nat := 16

/-- Range-check validation rule: the cell must hold a felt whose bit
length is at most 128, and then the address itself is validated. -/
def RangeCheckValidationRule : ValidationRuleT := fun data address =>
  match lookupBy data address with
  | none => .error .ValueNotFound
  | some res_val =>
    match res_val.GetFelt with
    | none => .error .NotAFelt
    | some f =>
      if f.Bits ≤ N_PARTS * INNER_RC_BOUND_SHIFT then .ok [address]
      else .error .OutsideBounds

/-- Validation rule that always fails, as in the repository's memory tests. -/
def rule_always_err : ValidationRuleT := fun _ _ => .error .ValidationFailed

/-- Claim C1 (amended): at an address of an allocated segment already
holding v1, inserting any distinct v2 fails with the write-once error and
leaves the memory unchanged; re-inserting the identical v1 re-runs the
validation of the address, so it succeeds, with the memory mapping
unchanged, whenever that validation succeeds, in particular whenever the
address has already been validated or its segment carries no validation
rule. -/
theorem Memory_Insert_write_once (m : Memory) (addr : Relocatable) (v1 v2 : MaybeRelocatable)
    (hheld : lookupBy m.data addr = some v1)
    (halloc : addr.SegmentIndex < (m.num_segments : Int)) :
    (v2 ≠ v1 → m.Insert addr v2 = (m, some .InconsistentMemory))
    ∧ (m.Insert addr v1 =
        ({ m with data := setBy m.data addr v1 } : Memory).validateAddress addr)
    ∧ ((addr ∈ m.validated_addresses ∨
          lookupBy m.validation_rules addr.SegmentIndex.toNat = none) →
        m.Insert addr v1 = ({ m with data := setBy m.data addr v1 }, none))
    ∧ (∀ a, lookupBy (setBy m.data addr v1) a = lookupBy m.data a) := by
  have hguard : ¬ ((m.num_segments : Int) ≤ addr.SegmentIndex) := by omega
  refine ⟨?_, ?_, ?_, ?_⟩
  · intro hne
    unfold Memory.Insert
    rw [if_neg hguard, hheld]
    dsimp only
    rw [if_pos (Ne.symm hne)]
  · unfold Memory.Insert
    rw [if_neg hguard, hheld]
    dsimp only
    rw [if_neg (fun hh => hh rfl)]
  · intro hval
    unfold Memory.Insert
    rw [if_neg hguard, hheld]
    dsimp only
    rw [if_neg (fun hh => hh rfl)]
    unfold Memory.validateAddress
    dsimp only
    rcases hval with hmem | hrule
    · rw [if_pos (Or.inr hmem)]
    · by_cases hin : addr.SegmentIndex < 0 ∨ addr ∈ m.validated_addresses
      · rw [if_pos hin]
      · rw [if_neg hin, hrule]
  · intro a
    by_cases ha : a = addr
    · rw [ha, lookupBy_setBy_eq, hheld]
    · rw [lookupBy_setBy_ne _ _ _ _ ha]

theorem bitLenAux_le_iff (fuel : Nat) : ∀ n k : Nat, n < 2 ^ fuel →
    (bitLenAux fuel n ≤ k ↔ n < 2 ^ k) := by
  induction fuel with
  | zero =>
    intro n k hn
    simp only [pow_zero, Nat.lt_one_iff] at hn
    subst hn
    simp [bitLenAux]
  | succ fuel ih =>
    intro n k hn
    unfold bitLenAux
    by_cases h0 : n = 0
    · subst h0
      simp
    · rw [if_neg h0]
      cases k with
      | zero =>
        simp only [pow_zero, Nat.lt_one_iff]
        omega
      | succ k =>
        have hdiv : n / 2 < 2 ^ fuel := by
          rw [Nat.div_lt_iff_lt_mul (by norm_num)]
          rw [pow_succ] at hn
          omega
        rw [Nat.succ_le_succ_iff, ih (n / 2) k hdiv, pow_succ]
        rw [Nat.div_lt_iff_lt_mul (by norm_num)]

theorem Felt_Bits_le_iff (a : Felt) (k : Nat) : a.Bits ≤ k ↔ a.val < 2 ^ k := by
  unfold Felt.Bits
  exact bitLenAux_le_iff 256 a.val k
    (lt_trans a.isLt (by norm_num [PRIME]))

/-- Concrete memory for the write-once counterexample: one allocated
segment carrying an always-failing validation rule (as the repository's
own memory tests install) and one cell already holding Felt 5, written by
the insert whose validation failed. -/
def c1mem : Memory :=
  { data := [(⟨0, 0⟩, .felt (Felt.ofNat 5))], num_segments := 1,
    validation_rules := [(0, rule_always_err)], validated_addresses := [], accessed := [] }

/-- Counterexample for C1 as stated: the address (0,0) of the allocated
segment 0 already holds Felt 5, yet re-inserting the identical Felt 5 does
not succeed, because the insert re-runs the failing validation rule. -/
theorem Memory_Insert_identical_fails_counterexample :
    c1mem.Get ⟨0, 0⟩ = some (.felt (Felt.ofNat 5))
    ∧ (⟨0, 0⟩ : Relocatable).SegmentIndex < (c1mem.num_segments : Int)
    ∧ (c1mem.Insert ⟨0, 0⟩ (.felt (Felt.ofNat 5))).2 = some .ValidationFailed := by
  refine ⟨rfl, by decide, rfl⟩

/-- Concrete memory without validation rules for the write-once witness. -/
def c1wmem : Memory :=
  { data := [(⟨0, 0⟩, .felt (Felt.ofNat 5))], num_segments := 1,
    validation_rules := [], validated_addresses := [], accessed := [] }

/-- Witness for the amended C1 on a concrete memory. -/
theorem Memory_Insert_write_once_witness :
    c1wmem.Insert ⟨0, 0⟩ (.felt (Felt.ofNat 6)) = (c1wmem, some .InconsistentMemory)
    ∧ c1wmem.Insert ⟨0, 0⟩ (.felt (Felt.ofNat 5)) =
        ({ c1wmem with data := setBy c1wmem.data ⟨0, 0⟩ (.felt (Felt.ofNat 5)) }, none) := by
  have h := Memory_Insert_write_once c1wmem ⟨0, 0⟩ (.felt (Felt.ofNat 5))
    (.felt (Felt.ofNat 6)) rfl (by decide)
  exact ⟨h.1 (by decide), h.2.2.1 (Or.inr rfl)⟩

theorem addressSetAddAll_single (s : List Relocatable) (a : Relocatable) (h : a ∉ s) :
    addressSetAddAll s [a] = s ++ [a] := by
  unfold addressSetAddAll addressSetAdd
  rw [if_neg h]
  rfl

/-- Claim C5: with the range-check rule installed on the segment of a
fresh address, inserting a felt with bit length at most 128 succeeds and
validates the address, inserting a felt with larger bit length fails with
the out-of-bounds error, inserting a non-felt fails with the not-a-felt
error, and bit length at most 128 is exactly membership in the interval
below 2^128. -/
theorem RangeCheck_insert_rule (m : Memory) (addr : Relocatable)
    (hseg : 0 ≤ addr.SegmentIndex)
    (halloc : addr.SegmentIndex < (m.num_segments : Int))
    (hrule : lookupBy m.validation_rules addr.SegmentIndex.toNat =
      some RangeCheckValidationRule)
    (hfresh : lookupBy m.data addr = none)
    (hnv : addr ∉ m.validated_addresses) :
    (∀ f : Felt, f.Bits ≤ 128 →
      m.Insert addr (.felt f) =
        ({ m with
             data := setBy m.data addr (.felt f)
             validated_addresses := m.validated_addresses ++ [addr] }, none))
    ∧ (∀ f : Felt, 128 < f.Bits →
      m.Insert addr (.felt f) =
        ({ m with data := setBy m.data addr (.felt f) }, some .OutsideBounds))
    ∧ (∀ r : Relocatable,
      m.Insert addr (.rel r) =
        ({ m with data := setBy m.data addr (.rel r) }, some .NotAFelt))
    ∧ (∀ f : Felt, f.Bits ≤ 128 ↔ f.val < 2 ^ 128) := by
  have hguard : ¬ ((m.num_segments : Int) ≤ addr.SegmentIndex) := by omega
  have hval : ¬ (addr.SegmentIndex < 0 ∨ addr ∈ m.validated_addresses) := by
    intro hcon
    rcases hcon with hc | hc
    · omega
    · exact hnv hc
  refine ⟨?_, ?_, ?_, fun f => Felt_Bits_le_iff f 128⟩
  · intro f hb
    unfold Memory.Insert
    rw [if_neg hguard, hfresh]
    dsimp only
    unfold Memory.validateAddress
    dsimp only
    rw [if_neg hval, hrule]
    dsimp only
    have hrc : RangeCheckValidationRule (setBy m.data addr (.felt f)) addr = .ok [addr] := by
      unfold RangeCheckValidationRule
      rw [lookupBy_setBy_eq]
      dsimp only [MaybeRelocatable.GetFelt]
      rw [if_pos (show f.Bits ≤ N_PARTS * INNER_RC_BOUND_SHIFT by
        unfold N_PARTS INNER_RC_BOUND_SHIFT
        omega)]
    rw [hrc]
    dsimp only
    rw [addressSetAddAll_single _ _ hnv]
  · intro f hb
    unfold Memory.Insert
    rw [if_neg hguard, hfresh]
    dsimp only
    unfold Memory.validateAddress
    dsimp only
    rw [if_neg hval, hrule]
    dsimp only
    have hrc : RangeCheckValidationRule (setBy m.data addr (.felt f)) addr =
        .error .OutsideBounds := by
      unfold RangeCheckValidationRule
      rw [lookupBy_setBy_eq]
      dsimp only [MaybeRelocatable.GetFelt]
      rw [if_neg (show ¬ f.Bits ≤ N_PARTS * INNER_RC_BOUND_SHIFT by
        unfold N_PARTS INNER_RC_BOUND_SHIFT
        omega)]
    rw [hrc]
  · intro r
    unfold Memory.Insert
    rw [if_neg hguard, hfresh]
    dsimp only
    unfold Memory.validateAddress
    dsimp only
    rw [if_neg hval, hrule]
    dsimp only
    have hrc : RangeCheckValidationRule (setBy m.data addr (.rel r)) addr =
        .error .NotAFelt := by
      unfold RangeCheckValidationRule
      rw [lookupBy_setBy_eq]
      rfl
    rw [hrc]

/-- Concrete memory with the range-check rule on segment 0. -/
def c5mem : Memory :=
  { data := [], num_segments := 1, validation_rules := [(0, RangeCheckValidationRule)],
    validated_addresses := [], accessed := [] }

/-- Witness for C5: inserting Felt 7 into the range-check segment succeeds
and validates the address. -/
theorem RangeCheck_insert_rule_witness :
    c5mem.Insert ⟨0, 0⟩ (.felt (Felt.ofNat 7)) =
      ({ c5mem with
           data := setBy c5mem.data ⟨0, 0⟩ (.felt (Felt.ofNat 7))
           validated_addresses := c5mem.validated_addresses ++ [⟨0, 0⟩] }, none) :=
  (RangeCheck_insert_rule c5mem ⟨0, 0⟩ (by decide) (by decide) rfl rfl
    (by decide)).1 (Felt.ofNat 7) (by decide)

/-- Claim C10: the segment-allocation check of Insert never rejects a
negative segment index, validateAddress never applies a rule to a
negative-segment address, and an insert into a negative-index segment
that does not hit the write-once check succeeds without validation. -/
theorem Memory_Insert_negative_segment (m : Memory) (addr : Relocatable)
    (val : MaybeRelocatable) (hneg : addr.SegmentIndex < 0) :
    ((m.Insert addr val).2 ≠ some .UnallocatedSegment)
    ∧ (∀ m1 : Memory, m1.validateAddress addr = (m1, none))
    ∧ (lookupBy m.data addr = none ∨ lookupBy m.data addr = some val →
        m.Insert addr val = ({ m with data := setBy m.data addr val }, none)) := by
  have hguard : ¬ ((m.num_segments : Int) ≤ addr.SegmentIndex) := by
    have : (0 : Int) ≤ (m.num_segments : Int) := Int.natCast_nonneg _
    omega
  have hvalid : ∀ m1 : Memory, m1.validateAddress addr = (m1, none) := by
    intro m1
    unfold Memory.validateAddress
    rw [if_pos (Or.inl hneg)]
  refine ⟨?_, hvalid, ?_⟩
  · unfold Memory.Insert
    rw [if_neg hguard]
    cases hlook : lookupBy m.data addr with
    | none =>
      dsimp only
      rw [hvalid]
      simp
    | some prev =>
      dsimp only
      by_cases hne : prev ≠ val
      · rw [if_pos hne]
        simp
      · rw [if_neg hne]
        rw [hvalid]
        simp
  · intro hdis
    unfold Memory.Insert
    rw [if_neg hguard]
    rcases hdis with hlook | hlook
    · rw [hlook]
      dsimp only
      rw [hvalid]
    · rw [hlook]
      dsimp only
      rw [if_neg (fun hh => hh rfl)]
      rw [hvalid]

/-- Concrete empty memory with no segments for the C10 witness. -/
def c10mem : Memory :=
  { data := [], num_segments := 0, validation_rules := [], validated_addresses := [],
    accessed := [] }

/-- Witness for C10: inserting into the temporary segment -1 of a memory
with no allocated segments succeeds without validation. -/
theorem Memory_Insert_negative_segment_witness :
    c10mem.Insert ⟨-1, 0⟩ (.felt (Felt.ofNat 3)) =
      ({ c10mem with data := setBy c10mem.data ⟨-1, 0⟩ (.felt (Felt.ofNat 3)) }, none) :=
  (Memory_Insert_negative_segment c10mem ⟨-1, 0⟩ (.felt (Felt.ofNat 3))
    (by decide)).2.2 (Or.inl rfl)

/-- Pedersen builtin runner state: owned segment base, inclusion flag, and
the slice of verified output addresses. -/
structure PedersenBuiltinRunner where
  base : Relocatable
  included : Bool
  verified_addresses : List Bool
  ratio : Nat
  instancesPerComponent : Nat

abbrev PEDERSEN_CELLS_PER_INSTANCE : Nat := 3

abbrev PEDERSEN_INPUT_CELLS_PER_INSTANCE : Nat := 2

/-- Reads the verified flag of an address: false when the slice is shorter
than the offset, otherwise the stored flag.  The Go code indexes out of
range when the slice length equals the offset; that case is unreachable
for output-cell offsets (length is always a multiple of three plus zero)
and is modelled as false. -/
def PedersenBuiltinRunner.CheckVerifiedAddresses (p : PedersenBuiltinRunner)
    (address : Relocatable) : Bool :=
  if p.verified_addresses.length < address.Offset then false
  else p.verified_addresses.getD address.Offset false

/-- Grows the verified slice up to the offset and marks it true.  The Go
append loop runs from zero to the difference inclusive, appending the
difference plus one entries. -/
def PedersenBuiltinRunner.ResizeVerifiedAddresses (p : PedersenBuiltinRunner)
    (address : Relocatable) : PedersenBuiltinRunner :=
  let num : Int := (address.Offset : Int) - (p.verified_addresses.length : Int)
  let va := if 0 < num then
      p.verified_addresses ++ List.replicate (num.toNat + 1) false
    else p.verified_addresses
  { p with verified_addresses := va.set address.Offset true }

/-- Pedersen auto-deduction: on an output cell (offset 2 mod 3) not yet
verified, reads the two input felts, marks the address verified and
returns their hash.  The hash function itself is the external
starknet_crypto.PedersenHash and is a parameter; the Go arguments are
(second cell below, first cell below), i.e. hash(b, a). -/
def PedersenBuiltinRunner.DeduceMemoryCell (hash : Felt → Felt → Felt)
    (p : PedersenBuiltinRunner) (address : Relocatable) (mem : Memory) :
    PedersenBuiltinRunner × Option MaybeRelocatable :=
  if address.Offset % PEDERSEN_CELLS_PER_INSTANCE ≠ PEDERSEN_INPUT_CELLS_PER_INSTANCE
      ∨ p.CheckVerifiedAddresses address then (p, none)
  else
    match mem.GetFelt ⟨address.SegmentIndex, address.Offset - 1⟩ with
    | .error _ => (p, none)
    | .ok feltA =>
      match mem.GetFelt ⟨address.SegmentIndex, address.Offset - 2⟩ with
      | .error _ => (p, none)
      | .ok feltB =>
        let p1 := p.ResizeVerifiedAddresses address
        (p1, some (.felt (hash feltB feltA)))

abbrev BITWISE_CELLS_PER_INSTANCE : Nat := 5

abbrev BITWISE_TOTAL_N_BITS : Nat := 251

abbrev BIWISE_INPUT_CELLS_PER_INSTANCE : Nat := 2

/-- Bitwise auto-deduction: cells come in groups of five, two inputs then
the AND, XOR and OR outputs.  Inputs must fit in 251 bits.  A failing
input fetch deduces nothing; the Go code ignores the error of the
subtraction that computes the first input address (it cannot fail, the
index is at most the offset). -/
def BitwiseBuiltinRunner.DeduceMemoryCell (address : Relocatable) (mem : Memory) :
    Except VmError (Option MaybeRelocatable) :=
  let index := address.Offset % BITWISE_CELLS_PER_INSTANCE
  if index < BIWISE_INPUT_CELLS_PER_INSTANCE then .ok none
  else
    let x_addr := match address.SubUint index with
      | .ok a => a
      | .error _ => address
    let y_addr := ⟨x_addr.SegmentIndex, x_addr.Offset + 1⟩
    match mem.GetFelt x_addr with
    | .error _ => .ok none
    | .ok num_x_felt =>
      match mem.GetFelt y_addr with
      | .error _ => .ok none
      | .ok num_y_felt =>
        if BITWISE_TOTAL_N_BITS < num_x_felt.Bits then .error .FeltBiggerThanPowerOfTwo
        else if BITWISE_TOTAL_N_BITS < num_y_felt.Bits then .error .FeltBiggerThanPowerOfTwo
        else if index = 2 then .ok (some (.felt (num_x_felt.And num_y_felt)))
        else if index = 3 then .ok (some (.felt (num_x_felt.Xor num_y_felt)))
        else if index = 4 then .ok (some (.felt (num_x_felt.Or num_y_felt)))
        else .ok none

theorem list_set_getD (l : List Bool) (n : Nat) (h : n < l.length) :
    (l.set n true).getD n false = true := by
  induction l generalizing n with
  | nil => simp at h
  | cons b rest ih =>
    cases n with
    | zero => rfl
    | succ n =>
      simp only [List.set_cons_succ, List.getD_cons_succ]
      exact ih n (by simpa using h)

/-- Claim C4 (amended): a first Pedersen deduction at an unverified output
cell with both inputs present returns the hash of the two inputs and marks
the address verified; a second request at the same address then deduces
nothing (it does not return the value again), which is the at-most-once
behaviour observable via the verified set. -/
theorem Pedersen_deduce_at_most_once (hash : Felt → Felt → Felt)
    (p p1 : PedersenBuiltinRunner) (mem : Memory) (address : Relocatable) (a b : Felt)
    (hoff : address.Offset % 3 = 2)
    (hlen : p.verified_addresses.length ≠ address.Offset)
    (hnv : p.CheckVerifiedAddresses address = false)
    (ha : mem.GetFelt ⟨address.SegmentIndex, address.Offset - 1⟩ = .ok a)
    (hb : mem.GetFelt ⟨address.SegmentIndex, address.Offset - 2⟩ = .ok b)
    (hp1 : p1 = p.ResizeVerifiedAddresses address) :
    PedersenBuiltinRunner.DeduceMemoryCell hash p address mem = (p1, some (.felt (hash b a)))
    ∧ p1.CheckVerifiedAddresses address = true
    ∧ PedersenBuiltinRunner.DeduceMemoryCell hash p1 address mem = (p1, none) := by
  have hcond : ¬ (address.Offset % PEDERSEN_CELLS_PER_INSTANCE ≠
      PEDERSEN_INPUT_CELLS_PER_INSTANCE ∨ p.CheckVerifiedAddresses address = true) := by
    intro hcon
    rcases hcon with hc | hc
    · exact hc hoff
    · rw [hnv] at hc
      exact Bool.false_ne_true hc
  have hcheck : p1.CheckVerifiedAddresses address = true := by
    subst hp1
    unfold PedersenBuiltinRunner.ResizeVerifiedAddresses
    unfold PedersenBuiltinRunner.CheckVerifiedAddresses
    dsimp only
    by_cases hnum : (0 : Int) < (address.Offset : Int) - (p.verified_addresses.length : Int)
    · rw [if_pos hnum]
      have hlt : address.Offset <
          (p.verified_addresses ++
            List.replicate (((address.Offset : Int) -
              (p.verified_addresses.length : Int)).toNat + 1) false).length := by
        simp only [List.length_append, List.length_replicate]
        omega
      rw [if_neg (by simp only [List.length_set]; omega)]
      exact list_set_getD _ _ hlt
    · rw [if_neg hnum]
      have hlt : address.Offset < p.verified_addresses.length := by omega
      rw [if_neg (by simp only [List.length_set]; omega)]
      exact list_set_getD _ _ hlt
  refine ⟨?_, hcheck, ?_⟩
  · unfold PedersenBuiltinRunner.DeduceMemoryCell
    rw [if_neg hcond, ha]
    dsimp only
    rw [hb]
    dsimp only
    rw [← hp1]
  · unfold PedersenBuiltinRunner.DeduceMemoryCell
    rw [if_pos (Or.inr hcheck)]

/-- Concrete memory holding the two Pedersen inputs 1 and 2. -/
def c4mem : Memory :=
  { data := [(⟨0, 0⟩, .felt (Felt.ofNat 1)), (⟨0, 1⟩, .felt (Felt.ofNat 2))],
    num_segments := 1, validation_rules := [], validated_addresses := [], accessed := [] }

/-- Fresh Pedersen runner based at segment 0. -/
def c4p : PedersenBuiltinRunner :=
  { base := ⟨0, 0⟩, included := true, verified_addresses := [], ratio := 8,
    instancesPerComponent := 1 }

/-- Stand-in for the external Pedersen hash in the concrete counterexample;
the claim quantifies over every hash function. -/
def c4hash : Felt → Felt → Felt := Felt.Add

/-- Counterexample for C4 as stated: the first deduction at the output
cell (0,2) returns the hash, but the second request at the same address
returns no value rather than the identical hash value. -/
theorem Pedersen_second_request_counterexample :
    (PedersenBuiltinRunner.DeduceMemoryCell c4hash c4p ⟨0, 2⟩ c4mem).2 =
      some (.felt (c4hash (Felt.ofNat 1) (Felt.ofNat 2)))
    ∧ (PedersenBuiltinRunner.DeduceMemoryCell c4hash
        (PedersenBuiltinRunner.DeduceMemoryCell c4hash c4p ⟨0, 2⟩ c4mem).1 ⟨0, 2⟩ c4mem).2 =
      none := by
  constructor <;> rfl

/-- Witness for the amended C4 on the concrete state. -/
theorem Pedersen_deduce_at_most_once_witness :
    PedersenBuiltinRunner.DeduceMemoryCell c4hash c4p ⟨0, 2⟩ c4mem =
      (c4p.ResizeVerifiedAddresses ⟨0, 2⟩, some (.felt (c4hash (Felt.ofNat 1) (Felt.ofNat 2))))
    ∧ (c4p.ResizeVerifiedAddresses ⟨0, 2⟩).CheckVerifiedAddresses ⟨0, 2⟩ = true
    ∧ PedersenBuiltinRunner.DeduceMemoryCell c4hash
        (c4p.ResizeVerifiedAddresses ⟨0, 2⟩) ⟨0, 2⟩ c4mem =
      (c4p.ResizeVerifiedAddresses ⟨0, 2⟩, none) :=
  Pedersen_deduce_at_most_once c4hash c4p (c4p.ResizeVerifiedAddresses ⟨0, 2⟩) c4mem
    ⟨0, 2⟩ (Felt.ofNat 2) (Felt.ofNat 1) (by decide) (by decide) (by decide) rfl rfl rfl

/-- Claim C9: bitwise deduction at an output cell (offset 2, 3 or 4 mod 5)
with both input felts present returns AND, XOR or OR of the inputs
respectively, fails whenever an input exceeds 251 bits, and deduces
nothing at input cells (offset 0 or 1 mod 5). -/
theorem Bitwise_deduce_table (mem : Memory) (address : Relocatable) :
    (address.Offset % 5 < 2 → BitwiseBuiltinRunner.DeduceMemoryCell address mem = .ok none)
    ∧ (∀ x y : Felt, 2 ≤ address.Offset % 5 →
        mem.GetFelt ⟨address.SegmentIndex, address.Offset - address.Offset % 5⟩ = .ok x →
        mem.GetFelt ⟨address.SegmentIndex, address.Offset - address.Offset % 5 + 1⟩ = .ok y →
        ((251 < x.Bits →
            BitwiseBuiltinRunner.DeduceMemoryCell address mem =
              .error .FeltBiggerThanPowerOfTwo)
         ∧ (x.Bits ≤ 251 → 251 < y.Bits →
            BitwiseBuiltinRunner.DeduceMemoryCell address mem =
              .error .FeltBiggerThanPowerOfTwo)
         ∧ (x.Bits ≤ 251 → y.Bits ≤ 251 →
            BitwiseBuiltinRunner.DeduceMemoryCell address mem =
              .ok (some (.felt
                (if address.Offset % 5 = 2 then x.And y
                 else if address.Offset % 5 = 3 then x.Xor y
                 else x.Or y)))))) := by
  constructor
  · intro hidx
    unfold BitwiseBuiltinRunner.DeduceMemoryCell
    rw [if_pos hidx]
  · intro x y hidx hx hy
    have hsub : Relocatable.SubUint address (address.Offset % 5) =
        .ok ⟨address.SegmentIndex, address.Offset - address.Offset % 5⟩ := by
      unfold Relocatable.SubUint
      rw [if_neg (by
        have := Nat.mod_le address.Offset 5
        omega)]
      rfl
    have hmain : ∀ P : Except VmError (Option MaybeRelocatable) → Prop,
        (P (if 251 < x.Bits then .error .FeltBiggerThanPowerOfTwo
            else if 251 < y.Bits then .error .FeltBiggerThanPowerOfTwo
            else if address.Offset % 5 = 2 then .ok (some (.felt (x.And y)))
            else if address.Offset % 5 = 3 then .ok (some (.felt (x.Xor y)))
            else if address.Offset % 5 = 4 then .ok (some (.felt (x.Or y)))
            else .ok none)) →
        P (BitwiseBuiltinRunner.DeduceMemoryCell address mem) := by
      intro P hP
      unfold BitwiseBuiltinRunner.DeduceMemoryCell
      rw [if_neg (show ¬ address.Offset % 5 < 2 by omega)]
      dsimp only
      rw [hsub]
      dsimp only
      rw [hx]
      dsimp only
      rw [hy]
      exact hP
    refine ⟨?_, ?_, ?_⟩
    · intro hbx
      refine hmain (fun r => r = .error .FeltBiggerThanPowerOfTwo) ?_
      rw [if_pos hbx]
    · intro hbx hby
      refine hmain (fun r => r = .error .FeltBiggerThanPowerOfTwo) ?_
      rw [if_neg (by omega), if_pos hby]
    · intro hbx hby
      refine hmain (fun r => r = .ok (some (.felt
        (if address.Offset % 5 = 2 then x.And y
         else if address.Offset % 5 = 3 then x.Xor y
         else x.Or y)))) ?_
      rw [if_neg (show ¬ 251 < x.Bits by omega), if_neg (show ¬ 251 < y.Bits by omega)]
      have h5 : address.Offset % 5 < 5 := Nat.mod_lt _ (by norm_num)
      have hcases : address.Offset % 5 = 2 ∨ address.Offset % 5 = 3 ∨
          address.Offset % 5 = 4 := by omega
      rcases hcases with hc | hc | hc <;> rw [hc] <;> rfl

/-- Concrete memory holding the two bitwise inputs 6 and 10. -/
def c9mem : Memory :=
  { data := [(⟨0, 0⟩, .felt (Felt.ofNat 6)), (⟨0, 1⟩, .felt (Felt.ofNat 10))],
    num_segments := 1, validation_rules := [], validated_addresses := [], accessed := [] }

/-- Witness for C9: deducing the XOR cell (0,3) of inputs 6 and 10. -/
theorem Bitwise_deduce_table_witness :
    BitwiseBuiltinRunner.DeduceMemoryCell ⟨0, 3⟩ c9mem =
      .ok (some (.felt ((Felt.ofNat 6).Xor (Felt.ofNat 10)))) := by
  have h := ((Bitwise_deduce_table c9mem ⟨0, 3⟩).2 (Felt.ofNat 6) (Felt.ofNat 10)
    (by decide) rfl rfl).2.2 (by decide) (by decide)
  rw [h]
  rfl

/-- The three VM registers. -/
structure RunContext where
  Pc : Relocatable
  Ap : Relocatable
  Fp : Relocatable
  deriving DecidableEq

/-- Register snapshot appended to the trace at every step. -/
structure TraceEntry where
  Pc : Relocatable
  Ap : Relocatable
  Fp : Relocatable
  deriving DecidableEq

/-- The four operands of an executed instruction. -/
structure Operands where
  Dst : MaybeRelocatable
  Op0 : MaybeRelocatable
  Op1 : MaybeRelocatable
  Res : Option MaybeRelocatable
  deriving DecidableEq

/-- A builtin runner, modelled as the record of the methods of the Go
BuiltinRunner interface together with the base and inclusion state shared
by every implementation in the sources. -/
structure BuiltinRunner where
  base : Relocatable
  included : Bool
  name : String
  ratio : Nat
  validationRule : Option ValidationRuleT
  deduceRule : Relocatable → MemoryData → Except VmError (Option MaybeRelocatable)
  getUsedCellsAndAllocatedSizes : MemorySegmentManager → Nat → Except VmError (Nat × Nat)
  getAllocatedMemoryUnits : MemorySegmentManager → Nat → Except VmError Nat
  getRangeCheckUsage : MemoryData → Option Nat × Option Nat
  getUsedDilutedCheckUnits : Nat → Nat → Nat
  getUsedPermRangeCheckLimits : MemorySegmentManager → Nat → Except VmError Nat

/-- Allocates the builtin's segment and records its base. -/
def BuiltinRunner.InitializeSegments (b : BuiltinRunner) (segments : MemorySegmentManager) :
    BuiltinRunner × MemorySegmentManager :=
  let (ptr, s1) := segments.AddSegment
  ({ b with base := ptr }, s1)

/-- Initial stack of a builtin: its base when included, empty otherwise. -/
def BuiltinRunner.InitialStack (b : BuiltinRunner) : List MaybeRelocatable :=
  if b.included then [.rel b.base] else []

/-- Registers the builtin's validation rule, when it has one. -/
def BuiltinRunner.AddValidationRule (b : BuiltinRunner) (mem : Memory) : Memory :=
  match b.validationRule with
  | some rule => mem.AddValidationRule b.base.SegmentIndex.toNat rule
  | none => mem

def BuiltinRunner.DeduceMemoryCell (b : BuiltinRunner) (addr : Relocatable) (mem : Memory) :
    Except VmError (Option MaybeRelocatable) :=
  b.deduceRule addr mem.data

/-- The virtual machine state. -/
structure VirtualMachine where
  RunContext : RunContext
  CurrentStep : Nat
  Segments : MemorySegmentManager
  BuiltinRunners : List BuiltinRunner
  Trace : List TraceEntry
  RcLimitsMin : Option Nat
  RcLimitsMax : Option Nat

def NewVirtualMachine : VirtualMachine :=
  { RunContext := ⟨⟨0, 0⟩, ⟨0, 0⟩, ⟨0, 0⟩⟩, CurrentStep := 0,
    Segments := NewMemorySegmentManager, BuiltinRunners := [], Trace := [],
    RcLimitsMin := none, RcLimitsMax := none }

/-- Address of the destination operand: dst register plus the first offset. -/
def RunContext.ComputeDstAddr (run_context : RunContext) (instruction : Instruction) :
    Except VmError Relocatable :=
  let base_addr := match instruction.DstReg with
    | .AP => run_context.Ap
    | .FP => run_context.Fp
  if instruction.Off0 < 0 then base_addr.SubUint instruction.Off0.natAbs
  else base_addr.AddUint instruction.Off0.toNat

/-- Address of the op0 operand: op0 register plus the second offset. -/
def RunContext.ComputeOp0Addr (run_context : RunContext) (instruction : Instruction) :
    Except VmError Relocatable :=
  let base_addr := match instruction.Op0Reg with
    | .AP => run_context.Ap
    | .FP => run_context.Fp
  if instruction.Off1 < 0 then base_addr.SubUint instruction.Off1.natAbs
  else base_addr.AddUint instruction.Off1.toNat

/-- Address of the op1 operand, depending on the op1 source. -/
def RunContext.ComputeOp1Addr (run_context : RunContext) (instruction : Instruction)
    (op0 : Option MaybeRelocatable) : Except VmError Relocatable := do
  let base_addr ← match instruction.Op1Addr with
    | .Op1SrcFP => .ok run_context.Fp
    | .Op1SrcAP => .ok run_context.Ap
    | .Op1SrcImm =>
      if instruction.Off2 = 1 then .ok run_context.Pc
      else .error .UnknownOp0
    | .Op1SrcOp0 =>
      match op0 with
      | none => .error .UnknownOp0
      | some op0v =>
        match op0v.GetRelocatable with
        | some rel => .ok rel
        | none => .error .AddressNotRelocatable
  if instruction.Off2 < 0 then base_addr.SubUint instruction.Off2.natAbs
  else base_addr.AddUint instruction.Off2.toNat

/-- Applies the deduction rule of the builtin owning the segment of the
address, if any. -/
def VirtualMachine.DeduceMemoryCell (vm : VirtualMachine) (addr : Relocatable) :
    Except VmError (Option MaybeRelocatable) :=
  match vm.BuiltinRunners.find? (fun b => b.base.SegmentIndex == addr.SegmentIndex) with
  | some b => b.DeduceMemoryCell addr vm.Segments.Memory
  | none => .ok none

/-- Deduces op0 (and possibly res) from dst and op1. -/
def VirtualMachine.DeduceOp0 (vm : VirtualMachine) (instruction : Instruction)
    (dst op1 : Option MaybeRelocatable) :
    Except VmError (Option MaybeRelocatable × Option MaybeRelocatable) :=
  match instruction.Opcode with
  | .Call =>
    .ok (some (.rel ⟨vm.RunContext.Pc.SegmentIndex,
      vm.RunContext.Pc.Offset + instruction.Size⟩), none)
  | .AssertEq =>
    match instruction.ResLogic with
    | .ResAdd =>
      match dst, op1 with
      | some d, some o1 =>
        match d.Sub o1 with
        | .error e => .error e
        | .ok diff => .ok (some diff, some d)
      | _, _ => .ok (none, none)
    | .ResMul =>
      match dst, op1 with
      | some d, some o1 =>
        match d.GetFelt, o1.GetFelt with
        | some dst_felt, some op1_felt =>
          if op1_felt.IsZero = false then .ok (some (.felt (dst_felt.Div op1_felt)), some d)
          else .ok (none, none)
        | _, _ => .ok (none, none)
      | _, _ => .ok (none, none)
    | _ => .ok (none, none)
  | _ => .ok (none, none)

/-- Deduces op1 (and possibly res) from dst and op0.  The Go ResMul branch
reads dst without a nil check (a latent nil dereference); a nil dst is
modelled as no deduction. -/
def VirtualMachine.DeduceOp1 (vm : VirtualMachine) (instruction : Instruction)
    (dst op0 : Option MaybeRelocatable) :
    Except VmError (Option MaybeRelocatable × Option MaybeRelocatable) :=
  if instruction.Opcode = .AssertEq then
    match instruction.ResLogic with
    | .ResOp1 => .ok (dst, dst)
    | .ResAdd =>
      match op0, dst with
      | some o0, some d =>
        match d.Sub o0 with
        | .error e => .error e
        | .ok diff => .ok (some diff, some d)
      | _, _ => .ok (none, none)
    | .ResMul =>
      match dst, op0 with
      | some d, some o0 =>
        match d.GetFelt, o0.GetFelt with
        | some dst_felt, some op0_felt =>
          if op0_felt.IsZero = false then .ok (some (.felt (dst_felt.Div op0_felt)), some d)
          else .ok (none, none)
        | _, _ => .ok (none, none)
      | _, _ => .ok (none, none)
    | _ => .ok (none, none)
  else .ok (none, none)

/-- Computes res from op0 and op1 per the res logic. -/
def VirtualMachine.ComputeRes (vm : VirtualMachine) (instruction : Instruction)
    (op0 op1 : MaybeRelocatable) : Except VmError (Option MaybeRelocatable) :=
  match instruction.ResLogic with
  | .ResOp1 => .ok (some op1)
  | .ResAdd =>
    match op0.Add op1 with
    | .error e => .error e
    | .ok maybe_rel => .ok (some maybe_rel)
  | .ResMul =>
    match op0.GetFelt, op1.GetFelt with
    | some num_op0, some num_op1 => .ok (some (.felt (num_op0.Mul num_op1)))
    | _, _ => .error .ComputeResRelocatableMul
  | .ResUnconstrained => .ok none

/-- Deduces dst from res per the opcode. -/
def VirtualMachine.DeduceDst (vm : VirtualMachine) (instruction : Instruction)
    (res : Option MaybeRelocatable) : Option MaybeRelocatable :=
  match instruction.Opcode with
  | .AssertEq => res
  | .Call => some (.rel vm.RunContext.Fp)
  | _ => none

/-- Runs the op0 deductions: builtin deduction first, then the algebraic
deduction; a deduced operand is inserted into memory (the insertion error
is discarded, as in the Go code). -/
def VirtualMachine.ComputeOp0Deductions (vm : VirtualMachine) (op0_addr : Relocatable)
    (instruction : Instruction) (dst op1 : Option MaybeRelocatable) :
    Memory × Except VmError (MaybeRelocatable × Option MaybeRelocatable) :=
  match vm.DeduceMemoryCell op0_addr with
  | .error e => (vm.Segments.Memory, .error e)
  | .ok builtinOp0 =>
    match (match builtinOp0 with
           | none => vm.DeduceOp0 instruction dst op1
           | some v => .ok (some v, none)) with
    | .error e => (vm.Segments.Memory, .error e)
    | .ok (op0Opt, deduced_res) =>
      match op0Opt with
      | some op0 =>
        let (mem1, _) := vm.Segments.Memory.Insert op0_addr op0
        (mem1, .ok (op0, deduced_res))
      | none => (vm.Segments.Memory, .error .FailedToComputeOrDeduceOp0)

/-- Runs the op1 deductions, updating res when it was still absent. -/
def VirtualMachine.ComputeOp1Deductions (vm : VirtualMachine) (op1_addr : Relocatable)
    (instruction : Instruction) (dst op0 : Option MaybeRelocatable)
    (res : Option MaybeRelocatable) :
    Memory × Except VmError (MaybeRelocatable × Option MaybeRelocatable) :=
  match vm.DeduceMemoryCell op1_addr with
  | .error e => (vm.Segments.Memory, .error e)
  | .ok builtinOp1 =>
    match builtinOp1 with
    | some v =>
      let (mem1, _) := vm.Segments.Memory.Insert op1_addr v
      (mem1, .ok (v, res))
    | none =>
      match vm.DeduceOp1 instruction dst op0 with
      | .error e => (vm.Segments.Memory, .error e)
      | .ok (op1Opt, deducedRes) =>
        let res1 := match res with
          | none => deducedRes
          | some r => some r
        match op1Opt with
        | some op1 =>
          let (mem1, _) := vm.Segments.Memory.Insert op1_addr op1
          (mem1, .ok (op1, res1))
        | none => (vm.Segments.Memory, .error .FailedToComputeOrDeduceOp1)

/-- Computes the operand addresses, fetches the operands and deduces the
missing ones, returning the final memory and the operands.  A nil dst
after deduction is a nil dereference in the Go code, modelled as an
error. -/
def VirtualMachine.ComputeOperands (vm : VirtualMachine) (instruction : Instruction) :
    Memory × Except VmError Operands :=
  match vm.RunContext.ComputeDstAddr instruction with
  | .error _ => (vm.Segments.Memory, .error .FailedToComputeDstAddr)
  | .ok dst_addr =>
    let dst := vm.Segments.Memory.Get dst_addr
    match vm.RunContext.ComputeOp0Addr instruction with
    | .error _ => (vm.Segments.Memory, .error .FailedToComputeOp0Addr)
    | .ok op0_addr =>
      let op0_op := vm.Segments.Memory.Get op0_addr
      match vm.RunContext.ComputeOp1Addr instruction op0_op with
      | .error _ => (vm.Segments.Memory, .error .FailedToComputeOp1Addr)
      | .ok op1_addr =>
        let op1_op := vm.Segments.Memory.Get op1_addr
        match (match op0_op with
               | some v =>
                 ((vm.Segments.Memory, .ok (v, none)) :
                   Memory × Except VmError (MaybeRelocatable × Option MaybeRelocatable))
               | none => vm.ComputeOp0Deductions op0_addr instruction dst op1_op) with
        | (mem1, .error e) => (mem1, .error e)
        | (mem1, .ok (op0, res0)) =>
          let vm1 := { vm with Segments := { vm.Segments with Memory := mem1 } }
          match (match op1_op with
                 | some v =>
                   ((mem1, .ok (v, res0)) :
                     Memory × Except VmError (MaybeRelocatable × Option MaybeRelocatable))
                 | none => vm1.ComputeOp1Deductions op1_addr instruction dst op0_op res0) with
          | (mem2, .error e) => (mem2, .error e)
          | (mem2, .ok (op1, res1)) =>
            let vm2 := { vm with Segments := { vm.Segments with Memory := mem2 } }
            match (match res1 with
                   | some r => (.ok (some r) : Except VmError (Option MaybeRelocatable))
                   | none => vm2.ComputeRes instruction op0 op1) with
            | .error e => (mem2, .error e)
            | .ok res2 =>
              match dst with
              | some d => (mem2, .ok ⟨d, op0, op1, res2⟩)
              | none =>
                match vm2.DeduceDst instruction res2 with
                | some d =>
                  let (mem3, _) := mem2.Insert dst_addr d
                  (mem3, .ok ⟨d, op0, op1, res2⟩)
                | none => (mem2, .error .NoDst)

/-- Opcode assertions: ASSERT_EQ checks res equals dst; CALL checks op0 is
the return pc and dst the return fp (a non-relocatable dst compares as the
zero relocatable, as the ignored-error Go code does). -/
def VirtualMachine.OpcodeAssertions (vm : VirtualMachine) (instruction : Instruction)
    (operands : Operands) : Option VmError :=
  match instruction.Opcode with
  | .AssertEq =>
    match operands.Res with
    | none => some .UnconstrainedResAssertEq
    | some res =>
      if res.IsEqual operands.Dst = false then some .DiffAssertValues else none
  | .Call =>
    match vm.RunContext.Pc.AddUint instruction.Size with
    | .error e => some e
    | .ok new_rel =>
      let returnPC := NewMaybeRelocatableRelocatable new_rel
      if operands.Op0.IsEqual returnPC = false then some .CantWriteReturnPc
      else
        let returnFP := vm.RunContext.Fp
        let dstRelocatable := (operands.Dst.GetRelocatable).getD ⟨0, 0⟩
        if returnFP.IsEqual dstRelocatable = false then some .CantWriteReturnFp
        else none
  | _ => none

/-- Updates the program counter per the pc update mode of the instruction. -/
def UpdatePc (instruction : Instruction) (operands : Operands) (ctx : RunContext) :
    RunContext × Option VmError :=
  match instruction.PcUpdate with
  | .PcUpdateRegular =>
    ({ ctx with Pc := ⟨ctx.Pc.SegmentIndex, ctx.Pc.Offset + instruction.Size⟩ }, none)
  | .PcUpdateJump =>
    match operands.Res with
    | none => (ctx, some .UnconstrainedResJump)
    | some res =>
      match res.GetRelocatable with
      | none => (ctx, some .JumpResNotRelocatable)
      | some r => ({ ctx with Pc := r }, none)
  | .PcUpdateJumpRel =>
    match operands.Res with
    | none => (ctx, some .UnconstrainedResJumpRel)
    | some res =>
      match res.GetFelt with
      | none => (ctx, some .JumpRelResNotFelt)
      | some f =>
        match ctx.Pc.AddFelt f with
        | .error e => (ctx, some e)
        | .ok new_pc => ({ ctx with Pc := new_pc }, none)
  | .PcUpdateJnz =>
    if operands.Dst.IsZero then
      ({ ctx with Pc := ⟨ctx.Pc.SegmentIndex, ctx.Pc.Offset + instruction.Size⟩ }, none)
    else
      match ctx.Pc.AddMaybeRelocatable operands.Op1 with
      | .error e => (ctx, some e)
      | .ok new_pc => ({ ctx with Pc := new_pc }, none)

/-- Updates the frame pointer per the fp update mode of the instruction. -/
def UpdateFp (instruction : Instruction) (operands : Operands) (ctx : RunContext) :
    RunContext × Option VmError :=
  match instruction.FpUpdate with
  | .FpUpdateAPPlus2 =>
    ({ ctx with Fp := ⟨ctx.Fp.SegmentIndex, ctx.Ap.Offset + 2⟩ }, none)
  | .FpUpdateDst =>
    match operands.Dst.GetRelocatable with
    | some rel => ({ ctx with Fp := rel }, none)
    | none =>
      match operands.Dst.GetFelt with
      | some f =>
        match ctx.Fp.AddFelt f with
        | .error e => (ctx, some e)
        | .ok new_fp => ({ ctx with Fp := new_fp }, none)
      | none => (ctx, none)
  | .FpUpdateRegular => (ctx, none)

/-- Updates the allocation pointer per the ap update mode of the instruction. -/
def UpdateAp (instruction : Instruction) (operands : Operands) (ctx : RunContext) :
    RunContext × Option VmError :=
  match instruction.ApUpdate with
  | .ApUpdateAdd =>
    match operands.Res with
    | none => (ctx, some .UnconstrainedResAdd)
    | some res =>
      match ctx.Ap.AddMaybeRelocatable res with
      | .error e => (ctx, some e)
      | .ok new_ap => ({ ctx with Ap := new_ap }, none)
  | .ApUpdateAdd1 => ({ ctx with Ap := ⟨ctx.Ap.SegmentIndex, ctx.Ap.Offset + 1⟩ }, none)
  | .ApUpdateAdd2 => ({ ctx with Ap := ⟨ctx.Ap.SegmentIndex, ctx.Ap.Offset + 2⟩ }, none)
  | .ApUpdateRegular => (ctx, none)

/-- Modelled from the spec: the body of UpdateRegisters is absent from the
sources; per the register update section it applies the fp, ap and pc
updates in an order where AP_PLUS_2 reads ap before the ap update (the
CALL scenario fixes fp to the pre-step ap plus two), stopping at the
first error. -/
def UpdateRegisters (instruction : Instruction) (operands : Operands) (ctx : RunContext) :
    RunContext × Option VmError :=
  match UpdateFp instruction operands ctx with
  | (ctx1, some e) => (ctx1, some e)
  | (ctx1, none) =>
    match UpdateAp instruction operands ctx1 with
    | (ctx2, some e) => (ctx2, some e)
    | (ctx2, none) => UpdatePc instruction operands ctx2

/-- Runs one decoded instruction: operands, assertions, trace entry,
register update, step counter. -/
def VirtualMachine.RunInstruction (vm : VirtualMachine) (instruction : Instruction) :
    VirtualMachine × Option VmError :=
  match vm.ComputeOperands instruction with
  | (mem1, .error e) => ({ vm with Segments := { vm.Segments with Memory := mem1 } }, some e)
  | (mem1, .ok operands) =>
    let vm1 := { vm with Segments := { vm.Segments with Memory := mem1 } }
    match vm1.OpcodeAssertions instruction operands with
    | some e => (vm1, some e)
    | none =>
      let vm2 := { vm1 with Trace := vm1.Trace ++
        [TraceEntry.mk vm1.RunContext.Pc vm1.RunContext.Ap vm1.RunContext.Fp] }
      match UpdateRegisters instruction operands vm2.RunContext with
      | (ctx1, some e) => ({ vm2 with RunContext := ctx1 }, some e)
      | (ctx1, none) =>
        ({ vm2 with RunContext := ctx1, CurrentStep := vm2.CurrentStep + 1 }, none)

/-- One VM step: fetch the cell at pc (must be a felt that fits in 64
bits), decode it, run it. -/
def VirtualMachine.Step (vm : VirtualMachine) : VirtualMachine × Option VmError :=
  match vm.Segments.Memory.Get vm.RunContext.Pc with
  | none => (vm, some .FailedToFetchInstruction)
  | some encoded_instruction =>
    match encoded_instruction.GetFelt with
    | none => (vm, some .WrongInstructionEncoding)
    | some f =>
      match f.ToU64 with
      | .error e => (vm, some e)
      | .ok n =>
        match DecodeInstruction n with
        | .error e => (vm, some e)
        | .ok instruction => vm.RunInstruction instruction

/-- Diluted pool parameters of a layout. -/
structure DilutedPoolInstanceDef where
  UnitsPerStep : Nat
  Spacing : Nat
  NBits : Nat

/-- The layout parameters consumed by the runner's accounting checks. -/
structure CairoLayout where
  Name : String
  RcUnits : Nat
  MemoryUnitsPerStep : Nat
  PublicMemoryFraction : Nat
  DilutedPoolInstance : Option DilutedPoolInstanceDef

/-- The Cairo runner state (the program is represented by its data,
entry offsets and builtin list, the parts the core consumes). -/
structure CairoRunner where
  ProgramData : List MaybeRelocatable
  Vm : VirtualMachine
  ProgramBase : Relocatable
  executionBase : Relocatable
  initialPc : Relocatable
  initialAp : Relocatable
  initialFp : Relocatable
  finalPc : Option Relocatable
  mainOffset : Nat
  ProofMode : Bool
  RunEnded : Bool
  ExecutionPublicMemory : Option (List Nat)
  Layout : CairoLayout
  ProgramStart : Nat
  ProgramEnd : Nat

/-- A fresh runner over a program and its already-constructed builtin
runners (the builtin selection against the layout happens before the
initialization phases modelled here). -/
def NewCairoRunnerState (data : List MaybeRelocatable) (mainOffset : Nat)
    (bs : List BuiltinRunner) (layout : CairoLayout) (proofMode : Bool) : CairoRunner :=
  { ProgramData := data,
    Vm := { NewVirtualMachine with BuiltinRunners := bs },
    ProgramBase := ⟨0, 0⟩, executionBase := ⟨0, 0⟩,
    initialPc := ⟨0, 0⟩, initialAp := ⟨0, 0⟩, initialFp := ⟨0, 0⟩,
    finalPc := none, mainOffset := mainOffset, ProofMode := proofMode,
    RunEnded := false, ExecutionPublicMemory := none, Layout := layout,
    ProgramStart := 0, ProgramEnd := 0 }

/-- Allocates one segment per builtin runner, in order. -/
def initBuiltinSegments : List BuiltinRunner → MemorySegmentManager →
    List BuiltinRunner × MemorySegmentManager
  | [], s => ([], s)
  | b :: rest, s =>
    let (b1, s1) := b.InitializeSegments s
    let (rest1, s2) := initBuiltinSegments rest s1
    (b1 :: rest1, s2)

/-- Creates the program, execution and builtin segments. -/
def CairoRunner.InitializeSegments (r : CairoRunner) : CairoRunner :=
  let (programBase, s1) := r.Vm.Segments.AddSegment
  let (executionBase, s2) := s1.AddSegment
  let (builtins, s3) := initBuiltinSegments r.Vm.BuiltinRunners s2
  { r with
    ProgramBase := programBase
    executionBase := executionBase
    Vm := { r.Vm with Segments := s3, BuiltinRunners := builtins } }

/-- Marks the first n offsets of a segment as accessed. -/
def markAccessedRange (mem : Memory) (base : Relocatable) (n : Nat) : Memory :=
  (List.range n).foldl (fun m i => m.MarkAsAccessed ⟨base.SegmentIndex, base.Offset + i⟩) mem

/-- Sets the initial pc, loads the program data at the program base and the
stack at the execution base, and marks the program cells accessed. -/
def CairoRunner.InitializeState (r : CairoRunner) (entrypoint : Nat)
    (stack : List MaybeRelocatable) : CairoRunner × Option VmError :=
  let r1 := { r with initialPc :=
    ⟨r.ProgramBase.SegmentIndex, r.ProgramBase.Offset + entrypoint⟩ }
  let (s1, res1) := r1.Vm.Segments.LoadData r1.ProgramBase r1.ProgramData
  let (s2, res2) :=
    match res1 with
    | .ok _ => s1.LoadData r1.executionBase stack
    | .error e => (s1, .error e)
  let mem3 := markAccessedRange s2.Memory r1.ProgramBase r1.ProgramData.length
  ({ r1 with Vm := { r1.Vm with Segments := { s2 with Memory := mem3 } } },
    match res2 with
    | .ok _ => none
    | .error e => some e)

/-- Allocates the end segment, appends the return fp and end pointers to
the stack, fixes the initial fp and ap past the stack and loads the
state. -/
def CairoRunner.InitializeFunctionEntrypoint (r : CairoRunner) (entrypoint : Nat)
    (stack : List MaybeRelocatable) (return_fp : Relocatable) :
    CairoRunner × Relocatable × Option VmError :=
  let (end_, s1) := r.Vm.Segments.AddSegment
  let stack1 := stack ++ [.rel return_fp, .rel end_]
  let r1 := { r with
    Vm := { r.Vm with Segments := s1 }
    initialFp := ⟨r.executionBase.SegmentIndex, r.executionBase.Offset + stack1.length⟩
    initialAp := ⟨r.executionBase.SegmentIndex, r.executionBase.Offset + stack1.length⟩
    finalPc := some end_ }
  let (r2, err) := r1.InitializeState entrypoint stack1
  (r2, end_, err)

/-- Concatenation of the initial stacks of the builtins, in order. -/
def builtinsInitialStacks : List BuiltinRunner → List MaybeRelocatable
  | [] => []
  | b :: rest => b.InitialStack ++ builtinsInitialStacks rest

/-- Initializes the main entrypoint: the builtins' initial stacks, then in
normal mode a fresh return-fp segment and the function entrypoint at the
main offset; in proof mode the two-cell stack prelude, the public memory
indices, fp and ap at execution base plus two, and the end pc at the
program's end offset (the Go code discards the error of the state load in
this branch). -/
def CairoRunner.InitializeMainEntrypoint (r : CairoRunner) :
    CairoRunner × Relocatable × Option VmError :=
  let stack := builtinsInitialStacks r.Vm.BuiltinRunners
  if r.ProofMode then
    let basePlusTwo : Relocatable :=
      ⟨r.executionBase.SegmentIndex, r.executionBase.Offset + 2⟩
    let proofStack := [.rel basePlusTwo, .felt (FeltFromUint64 0)] ++ stack
    let publicMemory := List.range proofStack.length
    let r1 := { r with ExecutionPublicMemory := some publicMemory }
    let (r2, _) := r1.InitializeState r.ProgramStart proofStack
    let r3 := { r2 with initialFp := basePlusTwo, initialAp := basePlusTwo }
    (r3, ⟨r.ProgramBase.SegmentIndex, r.ProgramBase.Offset + r.ProgramEnd⟩, none)
  else
    let (return_fp, s1) := r.Vm.Segments.AddSegment
    CairoRunner.InitializeFunctionEntrypoint { r with Vm := { r.Vm with Segments := s1 } }
      r.mainOffset stack return_fp

/-- Adds each builtin's validation rule to the memory. -/
def addValidationRules (bs : List BuiltinRunner) (mem : Memory) : Memory :=
  bs.foldl (fun m b => b.AddValidationRule m) mem

/-- Sets the run context from the initial register values, installs the
builtin validation rules and validates the pre-loaded memory. -/
def CairoRunner.InitializeVM (r : CairoRunner) : CairoRunner × Option VmError :=
  let ctx : RunContext := ⟨r.initialPc, r.initialAp, r.initialFp⟩
  let mem1 := addValidationRules r.Vm.BuiltinRunners r.Vm.Segments.Memory
  let (mem2, err) := mem1.ValidateExistingMemory
  ({ r with Vm := { r.Vm with
      RunContext := ctx
      Segments := { r.Vm.Segments with Memory := mem2 } } }, err)

/-- The initialization phases after builtin-runner construction: segments,
main entrypoint, vm; the vm phase runs only when the entrypoint phase
succeeded.  Returns the end pointer. -/
def CairoRunner.InitializeRunner (r : CairoRunner) :
    CairoRunner × Relocatable × Option VmError :=
  let r1 := r.InitializeSegments
  match r1.InitializeMainEntrypoint with
  | (r2, end_, some e) => (r2, end_, some e)
  | (r2, end_, none) =>
    let (r3, err2) := r2.InitializeVM
    (r3, end_, err2)


theorem AddFelt_segment (r r' : Relocatable) (f : Felt) (h : r.AddFelt f = .ok r') :
    r'.SegmentIndex = r.SegmentIndex := by
  unfold Relocatable.AddFelt at h
  cases hto : ((FeltFromUint64 r.Offset).Add f).ToU64 with
  | error e => rw [hto] at h; exact absurd h (by simp [Bind.bind, Except.bind])
  | ok n =>
    rw [hto] at h
    simp only [Bind.bind, Except.bind] at h
    cases h
    rfl

theorem AddMaybeRelocatable_segment (r r' : Relocatable) (other : MaybeRelocatable)
    (h : r.AddMaybeRelocatable other = .ok r') : r'.SegmentIndex = r.SegmentIndex := by
  cases other with
  | felt f => exact AddFelt_segment r r' f h
  | rel _ => exact absurd h (by simp [Relocatable.AddMaybeRelocatable])

theorem UpdateFp_not_dst (i : Instruction) (o : Operands) (ctx : RunContext)
    (h : i.FpUpdate ≠ .FpUpdateDst) :
    (UpdateFp i o ctx).1.Ap = ctx.Ap ∧
    (UpdateFp i o ctx).1.Fp.SegmentIndex = ctx.Fp.SegmentIndex := by
  unfold UpdateFp
  cases hfu : i.FpUpdate with
  | FpUpdateRegular => exact ⟨rfl, rfl⟩
  | FpUpdateAPPlus2 => exact ⟨rfl, rfl⟩
  | FpUpdateDst => exact absurd hfu h

theorem UpdateAp_fields (i : Instruction) (o : Operands) (ctx : RunContext) :
    (UpdateAp i o ctx).1.Fp = ctx.Fp ∧
    (UpdateAp i o ctx).1.Ap.SegmentIndex = ctx.Ap.SegmentIndex := by
  unfold UpdateAp
  cases hau : i.ApUpdate with
  | ApUpdateRegular => exact ⟨rfl, rfl⟩
  | ApUpdateAdd1 => exact ⟨rfl, rfl⟩
  | ApUpdateAdd2 => exact ⟨rfl, rfl⟩
  | ApUpdateAdd =>
    dsimp only
    cases hres : o.Res with
    | none => exact ⟨rfl, rfl⟩
    | some res =>
      dsimp only
      cases hadd : ctx.Ap.AddMaybeRelocatable res with
      | error e => exact ⟨rfl, rfl⟩
      | ok new_ap => exact ⟨rfl, AddMaybeRelocatable_segment _ _ _ hadd⟩

theorem UpdatePc_fields (i : Instruction) (o : Operands) (ctx : RunContext) :
    (UpdatePc i o ctx).1.Ap = ctx.Ap ∧ (UpdatePc i o ctx).1.Fp = ctx.Fp := by
  unfold UpdatePc
  cases hpu : i.PcUpdate with
  | PcUpdateRegular => exact ⟨rfl, rfl⟩
  | PcUpdateJump =>
    dsimp only
    cases o.Res with
    | none => exact ⟨rfl, rfl⟩
    | some res =>
      dsimp only
      cases res.GetRelocatable with
      | none => exact ⟨rfl, rfl⟩
      | some r => exact ⟨rfl, rfl⟩
  | PcUpdateJumpRel =>
    dsimp only
    cases o.Res with
    | none => exact ⟨rfl, rfl⟩
    | some res =>
      dsimp only
      cases res.GetFelt with
      | none => exact ⟨rfl, rfl⟩
      | some f =>
        dsimp only
        cases ctx.Pc.AddFelt f with
        | error e => exact ⟨rfl, rfl⟩
        | ok new_pc => exact ⟨rfl, rfl⟩
  | PcUpdateJnz =>
    dsimp only
    by_cases hz : o.Dst.IsZero
    · rw [if_pos hz]
      exact ⟨rfl, rfl⟩
    · rw [if_neg hz]
      cases ctx.Pc.AddMaybeRelocatable o.Op1 with
      | error e => exact ⟨rfl, rfl⟩
      | ok new_pc => exact ⟨rfl, rfl⟩

/-- Claim C3 (amended): a successful normal-mode initialization sets ap
equal to fp, on the execution segment; and the register update of any
instruction whose fp update is not DST preserves the property that ap and
fp share a segment index.  A DST fp update (as at a RET) may move fp to
the segment of the dst value, as the counterexample shows. -/
theorem ap_fp_share_segment :
    (∀ (data : List MaybeRelocatable) (mo : Nat) (bs : List BuiltinRunner)
        (layout : CairoLayout) (r : CairoRunner) (end_ : Relocatable),
      (NewCairoRunnerState data mo bs layout false).InitializeRunner = (r, end_, none) →
      r.Vm.RunContext.Ap = r.Vm.RunContext.Fp ∧
      r.Vm.RunContext.Ap.SegmentIndex = r.executionBase.SegmentIndex)
    ∧ (∀ (instruction : Instruction) (operands : Operands) (ctx ctx' : RunContext)
        (e : Option VmError),
      instruction.FpUpdate ≠ .FpUpdateDst →
      ctx.Ap.SegmentIndex = ctx.Fp.SegmentIndex →
      UpdateRegisters instruction operands ctx = (ctx', e) →
      ctx'.Ap.SegmentIndex = ctx'.Fp.SegmentIndex) := by
  constructor
  · intro data mo bs layout r end_ h
    unfold CairoRunner.InitializeRunner at h
    dsimp only at h
    rcases hmain : (NewCairoRunnerState data mo bs layout
        false).InitializeSegments.InitializeMainEntrypoint with ⟨r2, e2, err1⟩
    rw [hmain] at h
    cases err1 with
    | some e =>
      dsimp only at h
      exact absurd (congrArg (fun t => t.2.2) h) (by simp)
    | none =>
      dsimp only at h
      have hr : r = (r2.InitializeVM).1 := (congrArg (fun t => t.1) h).symm
      have h2 : r2 = ((NewCairoRunnerState data mo bs layout
          false).InitializeSegments.InitializeMainEntrypoint).1 := by rw [hmain]
      subst hr
      subst h2
      exact ⟨rfl, rfl⟩
  · intro instruction operands ctx ctx' e hfp hshare h
    unfold UpdateRegisters at h
    rcases hfpr : UpdateFp instruction operands ctx with ⟨ctx1, e1⟩
    have hfp1 := UpdateFp_not_dst instruction operands ctx hfp
    rw [hfpr] at h hfp1
    have hshare1 : ctx1.Ap.SegmentIndex = ctx1.Fp.SegmentIndex := by
      rw [hfp1.1, hfp1.2]
      exact hshare
    cases e1 with
    | some err =>
      dsimp only at h
      cases h
      exact hshare1
    | none =>
      dsimp only at h
      rcases hapr : UpdateAp instruction operands ctx1 with ⟨ctx2, e2⟩
      have hap2 := UpdateAp_fields instruction operands ctx1
      rw [hapr] at h hap2
      have hshare2 : ctx2.Ap.SegmentIndex = ctx2.Fp.SegmentIndex := by
        rw [hap2.1, hap2.2]
        exact hshare1
      cases e2 with
      | some err =>
        dsimp only at h
        cases h
        exact hshare2
      | none =>
        dsimp only at h
        have hpc := UpdatePc_fields instruction operands ctx2
        rw [h] at hpc
        rw [hpc.1, hpc.2]
        exact hshare2

/-- The plain layout parameters used by the concrete runs. -/
def plainLayout : CairoLayout := ⟨"plain", 16, 8, 4, none⟩

/-- A one-instruction program consisting of the standard ret instruction. -/
def retProgram : List MaybeRelocatable := [.felt (Felt.ofNat 0x208b7fff7fff7ffe)]

/-- The runner state after initializing the ret program with main offset 0
and no builtins, in normal mode. -/
def c3runner : CairoRunner :=
  (NewCairoRunnerState retProgram 0 [] plainLayout false).InitializeRunner.1

/-- Counterexample for C3 as stated: initialization of the one-instruction
program consisting of a single ret succeeds, the single step executes
successfully and reaches the final pc, yet afterwards ap is on segment 1
(the execution segment) while fp is on segment 2 (the return-fp segment),
so ap and fp do not share the execution segment index in this reachable
state. -/
theorem ap_fp_share_segment_counterexample :
    (NewCairoRunnerState retProgram 0 [] plainLayout false).InitializeRunner.2.2 = none
    ∧ (c3runner.Vm.Step).2 = none
    ∧ c3runner.executionBase.SegmentIndex = 1
    ∧ (c3runner.Vm.Step).1.RunContext.Pc = ⟨3, 0⟩
    ∧ c3runner.finalPc = some ⟨3, 0⟩
    ∧ (c3runner.Vm.Step).1.RunContext.Ap.SegmentIndex = 1
    ∧ (c3runner.Vm.Step).1.RunContext.Fp.SegmentIndex = 2 :=
  ⟨rfl, rfl, rfl, rfl, rfl, rfl, rfl⟩

/-- A decoded nop instruction with regular updates. -/
def nopInstruction : Instruction :=
  ⟨0, 0, 1, .AP, .AP, .Op1SrcAP, .ResOp1, .PcUpdateRegular, .ApUpdateRegular,
    .FpUpdateRegular, .NOp⟩

def zeroOperands : Operands :=
  ⟨.felt FeltZero, .felt FeltZero, .felt FeltZero, some (.felt FeltZero)⟩

def c3ctx : RunContext := ⟨⟨0, 0⟩, ⟨1, 5⟩, ⟨1, 7⟩⟩

/-- Witness for the amended C3: the initialized ret-program runner has ap
equal to fp on the execution segment, and a regular register update on a
concrete context preserves the shared segment index. -/
theorem ap_fp_share_segment_witness :
    (c3runner.Vm.RunContext.Ap = c3runner.Vm.RunContext.Fp ∧
      c3runner.Vm.RunContext.Ap.SegmentIndex = c3runner.executionBase.SegmentIndex)
    ∧ (UpdateRegisters nopInstruction zeroOperands c3ctx).1.Ap.SegmentIndex =
        (UpdateRegisters nopInstruction zeroOperands c3ctx).1.Fp.SegmentIndex :=
  ⟨ap_fp_share_segment.1 retProgram 0 [] plainLayout c3runner ⟨3, 0⟩ rfl,
   ap_fp_share_segment.2 nopInstruction zeroOperands c3ctx
     (UpdateRegisters nopInstruction zeroOperands c3ctx).1
     (UpdateRegisters nopInstruction zeroOperands c3ctx).2
     (by decide) rfl rfl⟩

/-- Claim C7: for a JNZ instruction, a felt dst equal to zero advances pc
by the instruction size; any other dst, including every relocatable dst,
takes the branch adding op1 to pc (felt addition on the offset, failure on
a relocatable op1). -/
theorem UpdatePc_jnz (instruction : Instruction) (operands : Operands) (ctx : RunContext)
    (hpc : instruction.PcUpdate = .PcUpdateJnz) :
    (∀ f : Felt, operands.Dst = .felt f → f.IsZero = true →
      UpdatePc instruction operands ctx =
        ({ ctx with Pc := ⟨ctx.Pc.SegmentIndex, ctx.Pc.Offset + instruction.Size⟩ }, none))
    ∧ (∀ f : Felt, operands.Dst = .felt f → f.IsZero = false →
      UpdatePc instruction operands ctx =
        (match ctx.Pc.AddMaybeRelocatable operands.Op1 with
         | .error e => (ctx, some e)
         | .ok new_pc => ({ ctx with Pc := new_pc }, none)))
    ∧ (∀ r : Relocatable, operands.Dst = .rel r →
      UpdatePc instruction operands ctx =
        (match ctx.Pc.AddMaybeRelocatable operands.Op1 with
         | .error e => (ctx, some e)
         | .ok new_pc => ({ ctx with Pc := new_pc }, none))) := by
  refine ⟨?_, ?_, ?_⟩
  · intro f hdst hz
    unfold UpdatePc
    rw [hpc]
    dsimp only
    rw [if_pos (show operands.Dst.IsZero = true by
      rw [hdst]
      exact hz)]
  · intro f hdst hz
    unfold UpdatePc
    rw [hpc]
    dsimp only
    rw [if_neg (show ¬ operands.Dst.IsZero = true by
      rw [hdst]
      simp [MaybeRelocatable.IsZero, hz])]
  · intro r hdst
    unfold UpdatePc
    rw [hpc]
    dsimp only
    rw [if_neg (show ¬ operands.Dst.IsZero = true by
      rw [hdst]
      simp [MaybeRelocatable.IsZero])]

def c7ops : Operands := ⟨.felt (Felt.ofNat 5), .felt FeltZero, .felt (Felt.ofNat 3), none⟩

def c7jnz : Instruction :=
  ⟨0, 0, 1, .AP, .AP, .Op1SrcAP, .ResUnconstrained, .PcUpdateJnz, .ApUpdateRegular,
    .FpUpdateRegular, .NOp⟩

/-- Witness for C7: a nonzero felt dst makes the jnz add op1 (felt 3) to
the pc. -/
theorem UpdatePc_jnz_witness :
    UpdatePc c7jnz c7ops c3ctx =
      (match (⟨0, 0⟩ : Relocatable).AddMaybeRelocatable (.felt (Felt.ofNat 3)) with
       | .error e => (c3ctx, some e)
       | .ok new_pc => ({ c3ctx with Pc := new_pc }, none)) :=
  (UpdatePc_jnz c7jnz c7ops c3ctx rfl).2.1 (Felt.ofNat 5) rfl (by decide)

theorem lookupBy_append_left {α β : Type} [DecidableEq α] (l1 l2 : List (α × β)) (a : α)
    (v : β) (h : lookupBy l1 a = some v) : lookupBy (l1 ++ l2) a = some v := by
  induction l1 with
  | nil => exact absurd h (by simp [lookupBy])
  | cons p rest ih =>
    rw [List.cons_append]
    show (if p.1 = a then some p.2 else lookupBy (rest ++ l2) a) = some v
    have h' : (if p.1 = a then some p.2 else lookupBy rest a) = some v := h
    by_cases hpa : p.1 = a
    · rw [if_pos hpa]
      rw [if_pos hpa] at h'
      exact h'
    · rw [if_neg hpa]
      rw [if_neg hpa] at h'
      exact ih h'

theorem lookupBy_append_none {α β : Type} [DecidableEq α] (l1 l2 : List (α × β)) (a : α)
    (h : lookupBy l1 a = none) : lookupBy (l1 ++ l2) a = lookupBy l2 a := by
  induction l1 with
  | nil => rfl
  | cons p rest ih =>
    rw [List.cons_append]
    show (if p.1 = a then some p.2 else lookupBy (rest ++ l2) a) = lookupBy l2 a
    have h' : (if p.1 = a then some p.2 else lookupBy rest a) = none := h
    by_cases hpa : p.1 = a
    · rw [if_pos hpa] at h'
      exact absurd h' (by simp)
    · rw [if_neg hpa]
      rw [if_neg hpa] at h'
      exact ih h'

theorem setBy_fresh {α β : Type} [DecidableEq α] (l : List (α × β)) (k : α) (v : β)
    (h : lookupBy l k = none) : setBy l k v = l ++ [(k, v)] := by
  unfold setBy
  rw [h]
  rfl

/-- The memory bindings a data list produces when laid out at consecutive
offsets of a segment, as LoadData writes them. -/
def addrData (s : Int) : Nat → List MaybeRelocatable → MemoryData
  | _, [] => []
  | off, v :: rest => (⟨s, off⟩, v) :: addrData s (off + 1) rest

theorem addrData_lookup (s : Int) (data : List MaybeRelocatable) :
    ∀ (off i : Nat), i < data.length →
    lookupBy (addrData s off data) ⟨s, off + i⟩ = data.get? i := by
  induction data with
  | nil =>
    intro off i h
    exact absurd h (by simp)
  | cons v rest ih =>
    intro off i h
    show (if (⟨s, off⟩ : Relocatable) = ⟨s, off + i⟩ then some v
      else lookupBy (addrData s (off + 1) rest) ⟨s, off + i⟩) = (v :: rest).get? i
    cases i with
    | zero =>
      rw [if_pos (show (⟨s, off⟩ : Relocatable) = ⟨s, off + 0⟩ from rfl)]
      rfl
    | succ j =>
      rw [if_neg (by
        intro hq
        injection hq with h1 h2
        omega)]
      have hoff : off + (j + 1) = (off + 1) + j := by omega
      rw [hoff]
      exact ih (off + 1) j (by
        rw [List.length_cons] at h
        omega)

theorem addrData_lookup_ne (s t : Int) (o : Nat) (data : List MaybeRelocatable)
    (h : t ≠ s) : ∀ off, lookupBy (addrData s off data) ⟨t, o⟩ = none := by
  induction data with
  | nil =>
    intro off
    rfl
  | cons v rest ih =>
    intro off
    show (if (⟨s, off⟩ : Relocatable) = ⟨t, o⟩ then some v
      else lookupBy (addrData s (off + 1) rest) ⟨t, o⟩) = none
    rw [if_neg (by
      intro hq
      injection hq with h1 h2
      exact h h1.symm)]
    exact ih (off + 1)

/-- Loading data at consecutive fresh addresses of an allocated segment with
no validation rule appends the bindings and succeeds with the pointer past
the data. -/
theorem LoadData_fresh (data : List MaybeRelocatable) :
    ∀ (m : MemorySegmentManager) (s : Int) (off : Nat),
    0 ≤ s → s < (m.Memory.num_segments : Int) →
    lookupBy m.Memory.validation_rules s.toNat = none →
    (∀ k, off ≤ k → lookupBy m.Memory.data ⟨s, k⟩ = none) →
    m.LoadData ⟨s, off⟩ data =
      ({ m with Memory := { m.Memory with data := m.Memory.data ++ addrData s off data } },
        .ok ⟨s, off + data.length⟩) := by
  induction data with
  | nil =>
    intro m s off _ _ _ _
    show ((m, .ok ⟨s, off⟩) : MemorySegmentManager × Except VmError Relocatable) = _
    rw [addrData, List.append_nil]
    rfl
  | cons v rest ih =>
    intro m s off hs0 hseg hrule hfresh
    unfold MemorySegmentManager.LoadData
    have hins : m.Memory.Insert ⟨s, off⟩ v =
        ({ m.Memory with data := m.Memory.data ++ [((⟨s, off⟩ : Relocatable), v)] }, none) := by
      unfold Memory.Insert
      rw [if_neg (not_le.mpr hseg)]
      rw [hfresh off (Nat.le_refl off)]
      dsimp only
      rw [setBy_fresh _ _ _ (hfresh off (Nat.le_refl off))]
      unfold Memory.validateAddress
      by_cases hv : (⟨s, off⟩ : Relocatable) ∈ m.Memory.validated_addresses
      · rw [if_pos (Or.inr hv)]
      · rw [if_neg (by
          push_neg
          exact ⟨hs0, hv⟩)]
        dsimp only
        rw [hrule]
    rw [hins]
    dsimp only
    rw [ih { m with Memory :=
        { m.Memory with data := m.Memory.data ++ [((⟨s, off⟩ : Relocatable), v)] } }
      s (off + 1) hs0 hseg hrule (fun k hk => by
        dsimp only
        rw [lookupBy_append_single _ _ _ _ (by
          intro hq
          injection hq with h1 h2
          omega)]
        exact hfresh k (by omega))]
    rw [List.append_assoc, List.singleton_append]
    have hlen : off + 1 + rest.length = off + (v :: rest).length := by
      rw [List.length_cons]
      omega
    rw [hlen]
    rfl

/-- Marking a range accessed changes only the accessed set. -/
theorem markAccessedRange_fields (base : Relocatable) (n : Nat) (mem : Memory) :
    (markAccessedRange mem base n).data = mem.data ∧
    (markAccessedRange mem base n).num_segments = mem.num_segments ∧
    (markAccessedRange mem base n).validation_rules = mem.validation_rules ∧
    (markAccessedRange mem base n).validated_addresses = mem.validated_addresses := by
  unfold markAccessedRange
  generalize List.range n = l
  induction l generalizing mem with
  | nil => exact ⟨rfl, rfl, rfl, rfl⟩
  | cons a rest ih =>
    rw [List.foldl_cons]
    exact ih (mem.MarkAsAccessed ⟨base.SegmentIndex, base.Offset + a⟩)

/-- The full initial stack of a normal-mode main initialization: the
builtins' initial stacks followed by the base of the fresh return-fp
segment and the base of the fresh end segment. -/
def c6FullStack (r : CairoRunner) : List MaybeRelocatable :=
  builtinsInitialStacks r.Vm.BuiltinRunners ++
    [.rel ⟨(r.Vm.Segments.Memory.num_segments : Int), 0⟩,
     .rel ⟨((r.Vm.Segments.Memory.num_segments + 1 : Nat) : Int), 0⟩]

/-- Claim C6: in normal mode, main-entrypoint initialization on a runner
with empty memory, no validation rules, program base segment 0 and
execution base segment 1 succeeds; it allocates a fresh return-fp segment
and then a fresh end segment, pushes the builtins' initial stacks followed
by return_fp and end as the last two stack cells, sets fp = ap =
execution base plus the stack length, final_pc = end, pc = program base
plus the main offset, and loads the program data at the program base and
the stack at the execution base. -/
theorem InitializeMainEntrypoint_normal (r : CairoRunner) (r' : CairoRunner)
    (e : Relocatable) (err : Option VmError)
    (hpm : r.ProofMode = false)
    (hdata : r.Vm.Segments.Memory.data = [])
    (hrules : r.Vm.Segments.Memory.validation_rules = [])
    (hprog : r.ProgramBase = ⟨0, 0⟩)
    (hexec : r.executionBase = ⟨1, 0⟩)
    (h : r.InitializeMainEntrypoint = (r', e, err)) :
    err = none ∧
    e = ⟨((r.Vm.Segments.Memory.num_segments + 1 : Nat) : Int), 0⟩ ∧
    r'.finalPc = some ⟨((r.Vm.Segments.Memory.num_segments + 1 : Nat) : Int), 0⟩ ∧
    r'.Vm.Segments.Memory.num_segments = r.Vm.Segments.Memory.num_segments + 2 ∧
    r'.initialAp = ⟨1, (c6FullStack r).length⟩ ∧
    r'.initialFp = ⟨1, (c6FullStack r).length⟩ ∧
    r'.initialPc = ⟨0, r.mainOffset⟩ ∧
    (∀ i, i < r.ProgramData.length →
      r'.Vm.Segments.Memory.Get ⟨0, i⟩ = r.ProgramData.get? i) ∧
    (∀ j, j < (c6FullStack r).length →
      r'.Vm.Segments.Memory.Get ⟨1, j⟩ = (c6FullStack r).get? j) := by
  unfold CairoRunner.InitializeMainEntrypoint at h
  dsimp only at h
  rw [hpm] at h
  rw [if_neg Bool.false_ne_true] at h
  unfold CairoRunner.InitializeFunctionEntrypoint CairoRunner.InitializeState at h
  dsimp only [MemorySegmentManager.AddSegment] at h
  rw [hprog, hexec] at h
  dsimp only at h
  rw [LoadData_fresh r.ProgramData _ 0 0 (by decide) ?hb1 ?hc1 ?hd1] at h
  case hb1 =>
    dsimp only
    exact_mod_cast Nat.succ_pos (r.Vm.Segments.Memory.num_segments + 1)
  case hc1 =>
    dsimp only
    rw [hrules]
    rfl
  case hd1 =>
    intro k _
    dsimp only
    rw [hdata]
    rfl
  dsimp only at h
  rw [LoadData_fresh _ _ 1 0 (by decide) ?hb2 ?hc2 ?hd2] at h
  case hb2 =>
    dsimp only
    exact_mod_cast (by omega : 1 < r.Vm.Segments.Memory.num_segments + 1 + 1)
  case hc2 =>
    dsimp only
    rw [hrules]
    rfl
  case hd2 =>
    intro k _
    dsimp only
    rw [hdata]
    exact addrData_lookup_ne 0 1 k r.ProgramData (by decide) 0
  dsimp only at h
  rw [hdata, List.nil_append] at h
  rw [Prod.mk.injEq, Prod.mk.injEq] at h
  obtain ⟨h1, h2, h3⟩ := h
  subst h1
  subst h2
  subst h3
  refine ⟨rfl, rfl, rfl, ?_, ?_, ?_, ?_, ?_, ?_⟩
  · rw [(markAccessedRange_fields _ _ _).2.1]
  · show (⟨1, 0 + (c6FullStack r).length⟩ : Relocatable) = ⟨1, (c6FullStack r).length⟩
    rw [Nat.zero_add]
  · show (⟨1, 0 + (c6FullStack r).length⟩ : Relocatable) = ⟨1, (c6FullStack r).length⟩
    rw [Nat.zero_add]
  · show (⟨0, 0 + r.mainOffset⟩ : Relocatable) = ⟨0, r.mainOffset⟩
    rw [Nat.zero_add]
  · intro i hi
    unfold Memory.Get
    rw [(markAccessedRange_fields _ _ _).1]
    have h1 := addrData_lookup 0 r.ProgramData 0 i hi
    rw [Nat.zero_add] at h1
    obtain ⟨v, hv⟩ : ∃ v, r.ProgramData.get? i = some v := by
      rw [List.get?_eq_get hi]
      exact ⟨_, rfl⟩
    rw [hv]
    exact lookupBy_append_left _ _ _ v (h1.trans hv)
  · intro j hj
    unfold Memory.Get
    rw [(markAccessedRange_fields _ _ _).1]
    rw [lookupBy_append_none _ _ _ (addrData_lookup_ne 0 1 j r.ProgramData (by decide) 0)]
    have h1 := addrData_lookup 1 (c6FullStack r) 0 j hj
    rw [Nat.zero_add] at h1
    exact h1

/-- A concrete output-style builtin runner with trivial accounting
methods, used by the concrete initialization runs. -/
def c6Builtin : BuiltinRunner :=
  { base := ⟨0, 0⟩
    included := true
    name := "output"
    ratio := 0
    validationRule := none
    deduceRule := fun _ _ => .ok none
    getUsedCellsAndAllocatedSizes := fun _ _ => .ok (0, 0)
    getAllocatedMemoryUnits := fun _ _ => .ok 0
    getRangeCheckUsage := fun _ => (none, none)
    getUsedDilutedCheckUnits := fun _ _ => 0
    getUsedPermRangeCheckLimits := fun _ _ => .ok 0 }

/-- A two-cell program body. -/
def c6prog : List MaybeRelocatable :=
  [.felt (Felt.ofNat 0x480680017fff8000), .felt FeltZero]

/-- A fresh runner over the two-cell program with one builtin, after
segment initialization: program segment 0, execution segment 1, builtin
segment 2. -/
def c6runner : CairoRunner :=
  (NewCairoRunnerState c6prog 0 [c6Builtin] plainLayout false).InitializeSegments

/-- Witness for C6: on the concrete runner the main-entrypoint
initialization succeeds, returns the end pointer on fresh segment 4 after
the return-fp segment 3, sets ap = fp = (1, 3) past the three-cell stack,
pc = (0, 0), and loads the program at segment 0 and the stack, ending in
the return-fp and end bases, at segment 1. -/
theorem InitializeMainEntrypoint_normal_witness :
    (c6runner.InitializeMainEntrypoint).2.2 = none ∧
    (c6runner.InitializeMainEntrypoint).2.1 = ⟨4, 0⟩ ∧
    ((c6runner.InitializeMainEntrypoint).1).finalPc = some ⟨4, 0⟩ ∧
    ((c6runner.InitializeMainEntrypoint).1).Vm.Segments.Memory.num_segments = 5 ∧
    ((c6runner.InitializeMainEntrypoint).1).initialAp = ⟨1, 3⟩ ∧
    ((c6runner.InitializeMainEntrypoint).1).initialFp = ⟨1, 3⟩ ∧
    ((c6runner.InitializeMainEntrypoint).1).initialPc = ⟨0, 0⟩ ∧
    (∀ i, i < c6prog.length →
      ((c6runner.InitializeMainEntrypoint).1).Vm.Segments.Memory.Get ⟨0, i⟩ =
        c6prog.get? i) ∧
    (∀ j, j < ([.rel ⟨2, 0⟩, .rel ⟨3, 0⟩, .rel ⟨4, 0⟩] : List MaybeRelocatable).length →
      ((c6runner.InitializeMainEntrypoint).1).Vm.Segments.Memory.Get ⟨1, j⟩ =
        ([.rel ⟨2, 0⟩, .rel ⟨3, 0⟩, .rel ⟨4, 0⟩] : List MaybeRelocatable).get? j) :=
  InitializeMainEntrypoint_normal c6runner
    (c6runner.InitializeMainEntrypoint).1
    (c6runner.InitializeMainEntrypoint).2.1
    (c6runner.InitializeMainEntrypoint).2.2
    rfl rfl rfl rfl rfl rfl

abbrev U64 : Nat := 2 ^ 64

/-- Go uint subtraction with wraparound. -/
def uintSub (a b : Nat) : Nat := (a % U64 + U64 - b % U64) % U64

/-- Modelled from the spec: utils.SafeDiv is absent from the sources; safe
division fails on a zero divisor or a non-exact division. -/
def SafeDiv (x y : Nat) : Except VmError Nat :=
  if y = 0 then .error .SafeDivFail
  else if x % y ≠ 0 then .error .SafeDivFail
  else .ok (x / y)

/-- Modelled from the spec: utils.NextPowOf2 is absent from the sources; the
end-run padding targets the least power of two no smaller than the step
count. -/
def NextPowOf2 (n : Nat) : Nat := 2 ^ Nat.clog 2 n

/-- First loop of CheckUsedCells: each builtin's used-cells query runs for
its error effect. -/
def checkBuiltinsUsedCells : List BuiltinRunner → MemorySegmentManager → Nat →
    Option VmError
  | [], _, _ => none
  | b :: rest, segments, step =>
    match b.getUsedCellsAndAllocatedSizes segments step with
    | .error e => some e
    | .ok _ => checkBuiltinsUsedCells rest segments step

/-- Sum of the builtins' allocated memory units, first error wins. -/
def builtinsMemoryUnits : List BuiltinRunner → MemorySegmentManager → Nat →
    Except VmError Nat
  | [], _, _ => .ok 0
  | b :: rest, segments, step =>
    match b.getAllocatedMemoryUnits segments step with
    | .error e => .error e
    | .ok u =>
      match builtinsMemoryUnits rest segments step with
      | .error e => .error e
      | .ok s => .ok ((u + s) % U64)

def CairoRunner.CheckMemoryUsage (r : CairoRunner) : Option VmError :=
  match builtinsMemoryUnits r.Vm.BuiltinRunners r.Vm.Segments r.Vm.CurrentStep with
  | .error e => some e
  | .ok bmu =>
    let totalMemoryUnits := r.Layout.MemoryUnitsPerStep * r.Vm.CurrentStep % U64
    let publicMemoryUnits := totalMemoryUnits / r.Layout.PublicMemoryFraction
    let remainder := totalMemoryUnits % r.Layout.PublicMemoryFraction
    if remainder ≠ 0 then some .MemoryUnitsNotDivisible
    else
      let instructionMemoryUnits := 4 * r.Vm.CurrentStep % U64
      let unusedMemoryUnits :=
        uintSub totalMemoryUnits
          ((publicMemoryUnits + instructionMemoryUnits + bmu) % U64)
      match r.Vm.Segments.GetMemoryHoles r.Vm.BuiltinRunners.length with
      | .error e => some e
      | .ok holes =>
        if unusedMemoryUnits < holes then
          some (.InsufficientAllocatedCells unusedMemoryUnits holes)
        else none

/-- Diluted units used by the builtins; a failing safe division of the step
count by the ratio propagates. -/
def dilutedUnitsByBuiltins : List BuiltinRunner → Nat → Nat → Nat → Except VmError Nat
  | [], _, _, _ => .ok 0
  | b :: rest, spacing, nBits, step =>
    let usedUnits := b.getUsedDilutedCheckUnits spacing nBits
    let ratio1 := if b.ratio = 0 then 1 else b.ratio
    match SafeDiv step ratio1 with
    | .error e => .error e
    | .ok multiplier =>
      match dilutedUnitsByBuiltins rest spacing nBits step with
      | .error e => .error e
      | .ok s => .ok ((usedUnits * multiplier % U64 + s) % U64)

def CairoRunner.CheckDilutedCheckUsage (r : CairoRunner) : Option VmError :=
  match r.Layout.DilutedPoolInstance with
  | none => none
  | some pool =>
    match dilutedUnitsByBuiltins r.Vm.BuiltinRunners pool.Spacing pool.NBits
        r.Vm.CurrentStep with
    | .error e => some e
    | .ok used =>
      let dilutedUnits := pool.UnitsPerStep * r.Vm.CurrentStep % U64
      let unusedDilutedUnits := uintSub dilutedUnits used
      let upper := 1 <<< pool.NBits % U64
      if unusedDilutedUnits < upper then
        some (.InsufficientAllocatedCells unusedDilutedUnits upper)
      else none

/-- Folds the builtins' range-check usage; for min and max alike, each
non-nil result replaces the accumulator. -/
def rcMinMaxOf : List BuiltinRunner → MemoryData → Option Nat × Option Nat →
    Option Nat × Option Nat
  | [], _, acc => acc
  | b :: rest, data, (mn, mx) =>
    let (resultMin, resultMax) := b.getRangeCheckUsage data
    rcMinMaxOf rest data
      ((match resultMin with | some m => some m | none => mn),
       (match resultMax with | some m => some m | none => mx))

/-- Sum of the builtins' used permanent range-check limits, first error
wins. -/
def rcUsedByBuiltins : List BuiltinRunner → MemorySegmentManager → Nat →
    Except VmError Nat
  | [], _, _ => .ok 0
  | b :: rest, segments, step =>
    match b.getUsedPermRangeCheckLimits segments step with
    | .error e => .error e
    | .ok u =>
      match rcUsedByBuiltins rest segments step with
      | .error e => .error e
      | .ok s => .ok ((u + s) % U64)

def CairoRunner.CheckRangeCheckUsage (r : CairoRunner) : Option VmError :=
  match rcMinMaxOf r.Vm.BuiltinRunners r.Vm.Segments.Memory.data (none, none) with
  | (none, _) => none
  | (_, none) => none
  | (some rcMin0, some rcMax0) =>
    let rcMax1 := match r.Vm.RcLimitsMax with
      | some m => if rcMax0 < m then m else rcMax0
      | none => rcMax0
    let rcMin1 := match r.Vm.RcLimitsMin with
      | some m => if m < rcMin0 then m else rcMin0
      | none => rcMin0
    match rcUsedByBuiltins r.Vm.BuiltinRunners r.Vm.Segments r.Vm.CurrentStep with
    | .error e => some e
    | .ok used =>
      let unusedRcUnits := uintSub (uintSub r.Layout.RcUnits 3 * r.Vm.CurrentStep % U64) used
      if unusedRcUnits < uintSub rcMax1 rcMin1 then
        some (.InsufficientAllocatedCells unusedRcUnits (uintSub rcMax1 rcMin1))
      else none

/-- The accounting check of the proof-mode padding loop: the builtins'
used-cells queries, then range-check usage, memory usage and diluted
usage, first error wins. -/
def CairoRunner.CheckUsedCells (r : CairoRunner) : Option VmError :=
  match checkBuiltinsUsedCells r.Vm.BuiltinRunners r.Vm.Segments r.Vm.CurrentStep with
  | some e => some e
  | none =>
    match r.CheckRangeCheckUsage with
    | some e => some e
    | none =>
      match r.CheckMemoryUsage with
      | some e => some e
      | none => r.CheckDilutedCheckUsage

/-- Runs the given number of steps; reaching the final pc before a step
fails with EndOfProgram, and any step error aborts. -/
def CairoRunner.RunForSteps (r : CairoRunner) : Nat → CairoRunner × Option VmError
  | 0 => (r, none)
  | steps + 1 =>
    if r.finalPc = some r.Vm.RunContext.Pc then
      (r, some (.EndOfProgram (steps + 1)))
    else
      match r.Vm.Step with
      | (vm1, some e) => ({ r with Vm := vm1 }, some e)
      | (vm1, none) => CairoRunner.RunForSteps { r with Vm := vm1 } steps

/-- Runs until the step count reaches the target (uint subtraction of the
current step count from the target). -/
def CairoRunner.RunUntilSteps (r : CairoRunner) (steps : Nat) :
    CairoRunner × Option VmError :=
  r.RunForSteps (uintSub steps r.Vm.CurrentStep)

def CairoRunner.RunUntilNextPowerOfTwo (r : CairoRunner) :
    CairoRunner × Option VmError :=
  r.RunUntilSteps (NextPowOf2 r.Vm.CurrentStep)

/-- Modelled from the spec: vm.EndRun is absent from the sources; its
hint-scope teardown is not modelled here and it succeeds. -/
def VirtualMachine.EndRun (_ : VirtualMachine) : Option VmError := none

/-- The proof-mode padding loop of EndRun, with explicit fuel for the
unbounded Go loop; exhausted fuel reports OutOfFuel, an outcome the Go
loop never produces. -/
def endRunLoop : Nat → CairoRunner → CairoRunner × Option VmError
  | 0, r => (r, some .OutOfFuel)
  | fuel + 1, r =>
    match r.CheckUsedCells with
    | none => (r, none)
    | some e =>
      if e.isInsufficientAllocatedCells then
        match r.RunForSteps 1 with
        | (r1, some e1) => (r1, some e1)
        | (r1, none) =>
          match r1.RunUntilNextPowerOfTwo with
          | (r2, some e2) => (r2, some e2)
          | (r2, none) => endRunLoop fuel r2
      else (r, some e)

/-- Ends the run: refuses a second call, finalizes segment sizes and, in
proof mode with trace padding enabled, pads to the next power of two and
runs the accounting loop. -/
def CairoRunner.EndRun (r : CairoRunner) (disableTracePadding disableFinalizeAll : Bool)
    (fuel : Nat) : CairoRunner × Option VmError :=
  if r.RunEnded then (r, some .RunnerCalledTwice)
  else
    match r.Vm.EndRun with
    | some e => (r, some e)
    | none =>
      if disableFinalizeAll then (r, none)
      else
        let r1 : CairoRunner :=
          { r with Vm := { r.Vm with Segments := r.Vm.Segments.ComputeEffectiveSizes } }
        if r1.ProofMode && !disableTracePadding then
          match r1.RunUntilNextPowerOfTwo with
          | (r2, some e) => (r2, some e)
          | (r2, none) =>
            match endRunLoop fuel r2 with
            | (r3, some e) => (r3, some e)
            | (r3, none) => ({ r3 with RunEnded := true }, none)
        else ({ r1 with RunEnded := true }, none)

/-- A successful VM step increments the step counter by one. -/
theorem Step_currentStep (vm vm1 : VirtualMachine) (h : vm.Step = (vm1, none)) :
    vm1.CurrentStep = vm.CurrentStep + 1 := by
  unfold VirtualMachine.Step at h
  cases hget : vm.Segments.Memory.Get vm.RunContext.Pc with
  | none =>
    rw [hget] at h
    exact absurd (congrArg Prod.snd h) (by simp)
  | some enc =>
    rw [hget] at h
    dsimp only at h
    cases hfelt : enc.GetFelt with
    | none =>
      rw [hfelt] at h
      exact absurd (congrArg Prod.snd h) (by simp)
    | some f =>
      rw [hfelt] at h
      dsimp only at h
      cases hu : f.ToU64 with
      | error e =>
        rw [hu] at h
        exact absurd (congrArg Prod.snd h) (by simp)
      | ok n =>
        rw [hu] at h
        dsimp only at h
        cases hd : DecodeInstruction n with
        | error e =>
          rw [hd] at h
          exact absurd (congrArg Prod.snd h) (by simp)
        | ok instr =>
          rw [hd] at h
          dsimp only at h
          unfold VirtualMachine.RunInstruction at h
          rcases hco : vm.ComputeOperands instr with ⟨mem1, res⟩
          rw [hco] at h
          cases res with
          | error e =>
            dsimp only at h
            exact absurd (congrArg Prod.snd h) (by simp)
          | ok operands =>
            dsimp only at h
            cases hoa : ({ vm with Segments := { vm.Segments with Memory := mem1 }
                } : VirtualMachine).OpcodeAssertions instr operands with
            | some e =>
              rw [hoa] at h
              exact absurd (congrArg Prod.snd h) (by simp)
            | none =>
              rw [hoa] at h
              dsimp only at h
              rcases hur : UpdateRegisters instr operands
                  ({ vm with Segments := { vm.Segments with Memory := mem1 }
                    } : VirtualMachine).RunContext with ⟨ctx1, oe⟩
              rw [hur] at h
              cases oe with
              | some e =>
                dsimp only at h
                exact absurd (congrArg Prod.snd h) (by simp)
              | none =>
                dsimp only at h
                exact (congrArg (fun p : VirtualMachine × Option VmError =>
                  p.1.CurrentStep) h).symm

/-- A successful fixed-count run advances the step counter by exactly the
requested number of steps. -/
theorem RunForSteps_steps (n : Nat) : ∀ (r r' : CairoRunner),
    r.RunForSteps n = (r', none) → r'.Vm.CurrentStep = r.Vm.CurrentStep + n := by
  induction n with
  | zero =>
    intro r r' h
    have h1 : r = r' := congrArg Prod.fst h
    rw [← h1]
    omega
  | succ n ih =>
    intro r r' h
    unfold CairoRunner.RunForSteps at h
    by_cases hfin : r.finalPc = some r.Vm.RunContext.Pc
    · rw [if_pos hfin] at h
      exact absurd (congrArg Prod.snd h) (by simp)
    · rw [if_neg hfin] at h
      rcases hstep : r.Vm.Step with ⟨vm1, oe⟩
      rw [hstep] at h
      cases oe with
      | some e =>
        dsimp only at h
        exact absurd (congrArg Prod.snd h) (by simp)
      | none =>
        dsimp only at h
        have h2 := ih { r with Vm := vm1 } r' h
        dsimp only at h2
        have hsc := Step_currentStep r.Vm vm1 hstep
        omega

/-- Claim C8: the proof-mode EndRun padding loop recovers locally from
InsufficientAllocatedCells only.  On a successful accounting check the
loop breaks; on any other accounting error it aborts with that error; on
an InsufficientAllocatedCells error it runs one more step and pads to the
next power of two, aborting with any error those steps raise, and
otherwise iterates; a successful padded run leaves the step count at the
next power of two; EndRun in proof mode with padding enabled pads to the
next power of two and enters the loop, and refuses a second call with
RunnerCalledTwice. -/
theorem EndRun_proof_mode_padding :
    (∀ (fuel : Nat) (r : CairoRunner), r.CheckUsedCells = none →
      endRunLoop (fuel + 1) r = (r, none)) ∧
    (∀ (fuel : Nat) (r : CairoRunner) (e : VmError), r.CheckUsedCells = some e →
      e.isInsufficientAllocatedCells = false →
      endRunLoop (fuel + 1) r = (r, some e)) ∧
    (∀ (fuel : Nat) (r r1 : CairoRunner) (e e1 : VmError), r.CheckUsedCells = some e →
      e.isInsufficientAllocatedCells = true →
      r.RunForSteps 1 = (r1, some e1) →
      endRunLoop (fuel + 1) r = (r1, some e1)) ∧
    (∀ (fuel : Nat) (r r1 r2 : CairoRunner) (e e2 : VmError), r.CheckUsedCells = some e →
      e.isInsufficientAllocatedCells = true →
      r.RunForSteps 1 = (r1, none) →
      r1.RunUntilNextPowerOfTwo = (r2, some e2) →
      endRunLoop (fuel + 1) r = (r2, some e2)) ∧
    (∀ (fuel : Nat) (r r1 r2 : CairoRunner) (e : VmError), r.CheckUsedCells = some e →
      e.isInsufficientAllocatedCells = true →
      r.RunForSteps 1 = (r1, none) →
      r1.RunUntilNextPowerOfTwo = (r2, none) →
      endRunLoop (fuel + 1) r = endRunLoop fuel r2) ∧
    (∀ (r r' : CairoRunner), NextPowOf2 r.Vm.CurrentStep < U64 →
      r.RunUntilNextPowerOfTwo = (r', none) →
      r'.Vm.CurrentStep = NextPowOf2 r.Vm.CurrentStep) ∧
    (∀ (fuel : Nat) (r : CairoRunner), r.RunEnded = false → r.ProofMode = true →
      r.EndRun false false fuel =
        match ({ r with Vm := { r.Vm with
            Segments := r.Vm.Segments.ComputeEffectiveSizes } }
              : CairoRunner).RunUntilNextPowerOfTwo with
        | (r2, some e) => (r2, some e)
        | (r2, none) =>
          match endRunLoop fuel r2 with
          | (r3, some e) => (r3, some e)
          | (r3, none) => ({ r3 with RunEnded := true }, none)) ∧
    (∀ (fuel : Nat) (d1 d2 : Bool) (r : CairoRunner), r.RunEnded = true →
      r.EndRun d1 d2 fuel = (r, some .RunnerCalledTwice)) := by
  refine ⟨?_, ?_, ?_, ?_, ?_, ?_, ?_, ?_⟩
  · intro fuel r h
    unfold endRunLoop
    rw [h]
  · intro fuel r e h hni
    unfold endRunLoop
    rw [h]
    dsimp only
    rw [if_neg (by
      rw [hni]
      exact Bool.false_ne_true)]
  · intro fuel r r1 e e1 h hi hrun
    unfold endRunLoop
    rw [h]
    dsimp only
    rw [if_pos hi, hrun]
  · intro fuel r r1 r2 e e2 h hi hrun hpad
    unfold endRunLoop
    rw [h]
    dsimp only
    rw [if_pos hi, hrun]
    dsimp only
    rw [hpad]
  · intro fuel r r1 r2 e h hi hrun hpad
    conv_lhs => unfold endRunLoop
    rw [h]
    dsimp only
    rw [if_pos hi, hrun]
    dsimp only
    rw [hpad]
  · intro r r' hlt hrun
    unfold CairoRunner.RunUntilNextPowerOfTwo CairoRunner.RunUntilSteps at hrun
    have hle : r.Vm.CurrentStep ≤ NextPowOf2 r.Vm.CurrentStep := by
      unfold NextPowOf2
      exact Nat.le_pow_clog (by decide) _
    have hs := RunForSteps_steps _ r r' hrun
    have hsub : uintSub (NextPowOf2 r.Vm.CurrentStep) r.Vm.CurrentStep =
        NextPowOf2 r.Vm.CurrentStep - r.Vm.CurrentStep := by
      unfold uintSub
      have hU : U64 = 18446744073709551616 := by norm_num [U64]
      rw [hU]
      rw [hU] at hlt
      omega
    rw [hsub] at hs
    omega
  · intro fuel r hre hpm
    unfold CairoRunner.EndRun
    rw [hre]
    rw [if_neg Bool.false_ne_true]
    dsimp only [VirtualMachine.EndRun]
    rw [if_neg Bool.false_ne_true]
    rw [hpm]
    rw [if_pos (by decide)]
  · intro fuel d1 d2 r hre
    unfold CairoRunner.EndRun
    rw [hre]
    rw [if_pos rfl]

/-- A bare proof-mode runner with no builtins and an untouched VM. -/
def c8r : CairoRunner := NewCairoRunnerState [] 0 [] plainLayout true

/-- A proof-mode runner whose recorded segment size of five unaccessed
cells makes the memory-usage check report insufficient allocated cells at
step zero. -/
def c8rIAC : CairoRunner :=
  { NewCairoRunnerState [] 0 [] plainLayout true with
    Vm := { NewVirtualMachine with Segments := ⟨[(0, 5)], NewMemory⟩ } }

/-- Witness for C8: on the bare runner the accounting check passes and the
loop breaks at once; on the insufficient-cells runner the loop recovers,
runs one more step, and aborts with that step's fetch error; a runner
whose run already ended is refused with RunnerCalledTwice. -/
theorem EndRun_proof_mode_padding_witness :
    c8r.CheckUsedCells = none ∧
    endRunLoop 1 c8r = (c8r, none) ∧
    c8rIAC.CheckUsedCells = some (.InsufficientAllocatedCells 0 5) ∧
    endRunLoop 3 c8rIAC = (c8rIAC, some .FailedToFetchInstruction) ∧
    ({ c8r with RunEnded := true } : CairoRunner).EndRun false false 1 =
      ({ c8r with RunEnded := true }, some .RunnerCalledTwice) :=
  ⟨rfl, EndRun_proof_mode_padding.1 0 c8r rfl, rfl,
    EndRun_proof_mode_padding.2.2.1 2 c8rIAC c8rIAC
      (.InsufficientAllocatedCells 0 5) .FailedToFetchInstruction rfl rfl rfl,
    EndRun_proof_mode_padding.2.2.2.2.2.2.2 1 false false
      { c8r with RunEnded := true } rfl⟩
